import Mathlib

/-!
Shallow embedding of the transcript review tool's synchronization core
(repository `ali`): transcript sentences, speaker grouping, the
time-indexed lookup engine (binary search for the active sentence, active
group resolution), the playback clock sampler, agenda/chapter and
same-speaker navigation, annotation (mark) state, selection-time
interpolation, and the time formatting utilities.

JS numbers are modelled as `Int`/`Nat`/`Rat` as appropriate (all times in
the data are integer milliseconds; interpolation in
`computeSelectionStartTimeMs` produces rationals).  JS strings are
modelled as Lean `String` (or `List Char` where character-level splitting
is required).  JS arrays are `List`s.
-/

namespace Ali

/-! ### Data model -/

/-- A transcript sentence (`TranscriptSentence`): `id`, `bt` (beginMs),
`et` (endMs), `si` (speakerId), `tc` (text content).  Data ids are
non-negative, hence `Nat`. -/
structure Sentence where
  id : Nat
  bt : Int
  et : Int
  si : Int
  tc : String
deriving DecidableEq

/-- Fallback sentence used to model JS array indexing (never reached on
in-bounds accesses, which is maintained as an invariant in the proofs). -/
def dfltSentence : Sentence := ⟨0, 0, 0, 0, ""⟩

/-! ### Decimal rendering (model of JS number-to-string for naturals)

`TranscriptPanel` builds group ids as the string `` `group-${sentence.id}` ``
and `formatTime` renders decimal components; we model the platform's
decimal rendering of a natural number explicitly. -/

/-- Decimal digits of `n`, most significant first (`123 ↦ [1,2,3]`). -/
def natDigits (n : Nat) : List Nat :=
  if _h : n < 10 then [n]
  else natDigits (n / 10) ++ [n % 10]
decreasing_by exact Nat.div_lt_self (by omega) (by omega)

/-- Value of a digit list, most significant first. -/
def decValue (l : List Nat) : Nat := l.foldl (fun a d => a * 10 + d) 0

/-- ASCII character of a decimal digit. -/
def digitChar10 (d : Nat) : Char := Char.ofNat (48 + d)

/-- Decimal rendering of a natural number as a character list. -/
def natToChars (n : Nat) : List Char := (natDigits n).map digitChar10

/-- Decimal rendering of a natural number as a string. -/
def natToString (n : Nat) : String := ⟨natToChars n⟩

/-- Model of `` `group-${id}` ``. -/
def groupIdOf (id : Nat) : String := "group-" ++ natToString id

/-! ### Speaker grouping (`speakerGroups` in `TranscriptPanel/index.tsx`
and in the video player component)

The source iterates all paragraphs and their sentences in order, which is
exactly the flattened sentence sequence; we embed the grouping over that
flat list.  The `text` field is only present in the `TranscriptPanel`
variant; the player variant is the same algorithm without `text`. -/

structure SpeakerGroup where
  id : String
  speakerId : Int
  startTime : Int
  endTime : Int
  sentences : List Sentence
  text : String
deriving DecidableEq

def dfltGroup : SpeakerGroup := ⟨"", 0, 0, 0, [], ""⟩

/-- A fresh group seeded with one sentence. -/
def newGroup (s : Sentence) : SpeakerGroup :=
  ⟨groupIdOf s.id, s.si, s.bt, s.et, [s], s.tc⟩

/-- Extending the current group with a same-speaker sentence
(`currentGroup.endTime = sentence.et` etc.). -/
def extendGroup (g : SpeakerGroup) (s : Sentence) : SpeakerGroup :=
  { g with endTime := s.et, sentences := g.sentences ++ [s], text := g.text ++ s.tc }

/-- The grouping loop with a non-null current group: each sentence either
extends the current group (same speaker) or closes it and opens a new
one; the current group is pushed at the end. -/
def sgLoop (cur : SpeakerGroup) : List Sentence → List SpeakerGroup
  | [] => [cur]
  | s :: rest =>
    if cur.speakerId ≠ s.si then cur :: sgLoop (newGroup s) rest
    else sgLoop (extendGroup cur s) rest

/-- `speakerGroups`: merge consecutive same-speaker sentences into groups. -/
def speakerGroups : List Sentence → List SpeakerGroup
  | [] => []
  | s :: rest => sgLoop (newGroup s) rest

/-- Number of adjacent sentence pairs with differing `speakerId`. -/
def speakerChanges : List Sentence → Nat
  | [] => 0
  | [_] => 0
  | a :: b :: rest => (if a.si ≠ b.si then 1 else 0) + speakerChanges (b :: rest)

/-- Speaker changes of a sentence list relative to a leading speaker. -/
def changesFrom (spk : Int) : List Sentence → Nat
  | [] => 0
  | s :: r => (if spk ≠ s.si then 1 else 0) + changesFrom s.si r

/-- In-order concatenation of strings. -/
def strConcat (l : List String) : String := ⟨(l.map String.data).flatten⟩

/-- What grouping guarantees for each produced group: a non-empty
sentence run led by the seeding sentence, `id`/`speakerId`/`startTime`
from the first sentence, `endTime` from the last, every sentence of the
run spoken by the group's speaker, and `text` the in-order concatenation
of the run's texts. -/
def GroupWF (g : SpeakerGroup) : Prop :=
  ∃ h t, g.sentences = h :: t ∧ g.id = groupIdOf h.id ∧ g.speakerId = h.si ∧
    g.startTime = h.bt ∧ g.endTime = (g.sentences.getLastD dfltSentence).et ∧
    (∀ s ∈ g.sentences, s.si = g.speakerId) ∧
    g.text = strConcat (g.sentences.map Sentence.tc)

/-! ### Time-indexed lookup (`currentSentence` binary search,
`sentenceIdToGroupId`, `currentGroup`) -/

/-- The binary-search loop of `currentSentence`.  In the source `left`
and `right` are JS integers; `right` can only become negative as
`mid - 1` when `mid = 0`, after which the loop guard `left <= right`
(with `left ≥ 0`) immediately fails and the loop returns `candidate`.
We keep `left`/`right` as `Nat` and return `cand` directly in that case,
which is the same behaviour. -/
def bsGo (arr : List Sentence) (t : Int) (left right : Nat) (cand : Option Nat) :
    Option Nat :=
  if left ≤ right then
    let mid := (left + right) / 2
    if (arr.getD mid dfltSentence).bt ≤ t then
      bsGo arr t (mid + 1) right (some mid)
    else
      if mid = 0 then cand
      else bsGo arr t left (mid - 1) cand
  else cand
termination_by right + 1 - left
decreasing_by all_goals omega

/-- `currentSentence`: binary search over the time-sorted flattened
sentence list for the last sentence with `bt ≤ currentMs`, returned only
when `currentMs ≤ et`. -/
def findActiveSentence (arr : List Sentence) (t : Int) : Option Sentence :=
  if arr.length = 0 then none
  else
    match bsGo arr t 0 (arr.length - 1) none with
    | none => none
    | some c =>
      let s := arr.getD c dfltSentence
      if t ≤ s.et then some s else none

/-- Reference definition (from the spec's words): the last sentence of
the list whose `beginMs ≤ timeMs`, kept only if `timeMs ≤ endMs`. -/
def refActiveSentence (arr : List Sentence) (t : Int) : Option Sentence :=
  match (arr.filter (fun s => s.bt ≤ t)).getLast? with
  | none => none
  | some s => if t ≤ s.et then some s else none

/-- JS `Map.set` (insert or overwrite). -/
def mapSet (m : List (Nat × String)) (k : Nat) (v : String) : List (Nat × String) :=
  if m.any (fun p => p.1 = k) then
    m.map (fun p => if p.1 = k then (k, v) else p)
  else m ++ [(k, v)]

/-- JS `Map.get`. -/
def mapGet (m : List (Nat × String)) (k : Nat) : Option String :=
  (m.find? (fun p => p.1 = k)).map (fun p => p.2)

/-- `sentenceIdToGroupId`: for each group, map each of its sentences' ids
to the group id. -/
def sentenceIdToGroupId (groups : List SpeakerGroup) : List (Nat × String) :=
  groups.foldl (fun m g => g.sentences.foldl (fun m' s => mapSet m' s.id g.id) m) []

/-- Well-formedness of an ordered transcript, per the data model:
each sentence's span is non-degenerate (`bt ≤ et`), consecutive
sentences do not overlap (`et ≤` next `bt`, which makes `bt` and `et`
non-decreasing), and sentence ids are distinct.  Under this hypothesis
the `.sort((a, b) => a.bt - b.bt)` of `allSentences` is the identity, so
the flattened paragraph order and the sorted order coincide and both are
modelled by the single list `sentences`. -/
def WellFormedTranscript (ss : List Sentence) : Prop :=
  (∀ s ∈ ss, s.bt ≤ s.et) ∧
  List.Chain' (fun a b => a.et ≤ b.bt) ss ∧
  (ss.map Sentence.id).Nodup

/-- `currentGroup`: resolve the active sentence, then its group via the
`sentenceId → groupId` map, then find the group by id. -/
def findActiveGroup (sentences : List Sentence) (t : Int) : Option SpeakerGroup :=
  let groups := speakerGroups sentences
  match findActiveSentence sentences t with
  | none => none
  | some s =>
    match mapGet (sentenceIdToGroupId groups) s.id with
    | none => none
    | some gid => groups.find? (fun g => g.id = gid)

/-! ### Playback clock sampler (`renderTimeMs` throttle effect)

On each raw time update the effect returns without change while a text
selection is in progress or the selection menu is visible; otherwise it
adopts the raw value only when it differs from the last sampled value by
at least 180 ms. -/

/-- One step of the sampler: `selecting`/`menuVisible` are the suspension
flags, `raw` the incoming `currentTime * 1000`, `sampled` the last
sampled `renderTimeMs`. -/
def samplerStep (selecting menuVisible : Bool) (raw sampled : Int) : Int :=
  if menuVisible || selecting then sampled
  else if |raw - sampled| < 180 then sampled
  else raw

/-- Folding a raw-time trace through the sampler in tracking state,
counting the updates that actually change the sampled value. -/
def samplerRun (trace : List Int) (sampled : Int) : Int × Nat :=
  trace.foldl
    (fun st raw =>
      let next := samplerStep false false raw st.1
      (next, st.2 + (if next ≠ st.1 then 1 else 0)))
    (sampled, 0)

/-! ### Agenda items and chapter navigation (`jumpToPrevSegment` /
`jumpToNextSegment` in the video player)

Only the fields used by navigation are carried; `value`/`summary` are
presentation-only.  The functions below return the seek target in
milliseconds (`some targetMs` when the code assigns
`videoRef.current.currentTime`), or `none` when no assignment happens. -/

structure AgendaItem where
  time : Option Int
  endTime : Option Int
deriving DecidableEq

def dfltItem : AgendaItem := ⟨none, none⟩

/-- An item with both `time` and `endTime` defined ("dated"). -/
def AgendaItem.dated (it : AgendaItem) : Bool := it.time.isSome && it.endTime.isSome

/-- Well-formedness of an agenda list, per the data model: each dated
item's bounds are ordered, an item carrying a start time also carries an
end time (items are dated or fully undated), and items are ascending and
non-overlapping in list order (`endTime ≤` any later `time`). -/
def AgendaWF (items : List AgendaItem) : Prop :=
  (∀ it ∈ items, ∀ b e, it.time = some b → it.endTime = some e → b ≤ e) ∧
  (∀ it ∈ items, it.time.isSome → it.endTime.isSome) ∧
  List.Pairwise (fun a b => ∀ ea bb, a.endTime = some ea → b.time = some bb → ea ≤ bb) items

/-- JS `Array.prototype.findIndex` (−1 when no match). -/
def jsFindIndex (l : List α) (p : α → Bool) : Int :=
  match l.findIdx? p with
  | some k => (k : Int)
  | none => -1

/-- First pass of the current-chapter search: dated and
`time ≤ currentMs < endTime − 100`. -/
def agendaStrictHit (t : Int) (it : AgendaItem) : Bool :=
  match it.time, it.endTime with
  | some b, some e => decide (b ≤ t) && decide (t < e - 100)
  | _, _ => false

/-- Fallback pass: dated and `time ≤ currentMs ≤ endTime` (inclusive). -/
def agendaLooseHit (t : Int) (it : AgendaItem) : Bool :=
  match it.time, it.endTime with
  | some b, some e => decide (b ≤ t) && decide (t ≤ e)
  | _, _ => false

/-- The current chapter index: the epsilon test first, then the inclusive
fallback (−1 when neither finds a chapter). -/
def currentAgendaIdx (items : List AgendaItem) (t : Int) : Int :=
  let strict := jsFindIndex items (agendaStrictHit t)
  if strict = -1 then jsFindIndex items (agendaLooseHit t) else strict

/-- `jumpToPrevSegment`: seek to the previous item's `time` when the
current index is positive and that item is dated. -/
def jumpToPrevSegmentTarget (items : List AgendaItem) (t : Int) : Option Int :=
  if items.length = 0 then none
  else
    let ci := currentAgendaIdx items t
    if ci > 0 then (items.getD (ci - 1).toNat dfltItem).time else none

/-- `jumpToNextSegment`: seek to the following item's `time` when the
current index is below the last position and that item is dated.
(When `ci = −1` the JS code reads `agendaItems[0]`.) -/
def jumpToNextSegmentTarget (items : List AgendaItem) (t : Int) : Option Int :=
  if items.length = 0 then none
  else
    let ci := currentAgendaIdx items t
    if ci < (items.length : Int) - 1 then (items.getD (ci + 1).toNat dfltItem).time
    else none

/-! ### Same-speaker utterance navigation (`jumpToPrevSentence` /
`jumpToNextSentence` in the video player) -/

/-- Resolve the current group index: the group containing `currentMs`,
else the index of the first group starting after `currentMs` minus one
(`−1 − 1 = −2` when there is none, as in the source). -/
def resolveGroupIdx (groups : List SpeakerGroup) (t : Int) : Int :=
  let idx := jsFindIndex groups (fun g => decide (g.startTime ≤ t) && decide (t ≤ g.endTime))
  if idx = -1 then
    jsFindIndex groups (fun g => decide (g.startTime > t)) - 1
  else idx

/-- The backward scan `for (i = start; i >= 0; i--)` for a group with the
given speaker. -/
def scanPrevSame (groups : List SpeakerGroup) (spk : Int) : Nat → Option Nat
  | 0 => if (groups.getD 0 dfltGroup).speakerId = spk then some 0 else none
  | i + 1 =>
    if (groups.getD (i + 1) dfltGroup).speakerId = spk then some (i + 1)
    else scanPrevSame groups spk i

/-- The forward scan `for (i = start; i < length; i++)` for a group with
the given speaker. -/
def scanNextSame (groups : List SpeakerGroup) (spk : Int) (i : Nat) : Option Nat :=
  if i < groups.length then
    if (groups.getD i dfltGroup).speakerId = spk then some i
    else scanNextSame groups spk (i + 1)
  else none
termination_by groups.length - i

/-- `jumpToPrevSentence`: seek target (the found group's `startTime`), or
`none` when the code returns without seeking. -/
def jumpToPrevSentenceTarget (groups : List SpeakerGroup) (t : Int) : Option Int :=
  if groups.length = 0 then none
  else
    let ci := resolveGroupIdx groups t
    if ci ≤ 0 then none
    else
      let cur := groups.getD ci.toNat dfltGroup
      match scanPrevSame groups cur.speakerId (ci.toNat - 1) with
      | some j => some (groups.getD j dfltGroup).startTime
      | none => none

/-- `jumpToNextSentence`: seek target, or `none` when the code returns
without seeking. -/
def jumpToNextSentenceTarget (groups : List SpeakerGroup) (t : Int) : Option Int :=
  if groups.length = 0 then none
  else
    let ci := resolveGroupIdx groups t
    if ci < 0 || ci ≥ (groups.length : Int) - 1 then none
    else
      let cur := groups.getD ci.toNat dfltGroup
      match scanNextSame groups cur.speakerId (ci.toNat + 1) with
      | some j => some (groups.getD j dfltGroup).startTime
      | none => none

/-! ### Annotation state (`groupMarks` in `TranscriptPanel`, the
progress-bar `transcriptMarks` in the video player, and the selection
text marks) -/

inductive MarkKind where
  | important
  | question
  | todo
deriving DecidableEq

/-- `MarkType = 'important' | 'question' | 'todo' | null`. -/
abbrev MarkType := Option MarkKind

/-- `handleMarkChange`'s state update
`setGroupMarks(prev => ({ ...prev, [group.id]: type }))`: a JS object
spread keeps an existing key in place (overwriting its value) and
appends a new key. -/
def setGroupMark (m : List (String × MarkType)) (gid : String) (ty : MarkType) :
    List (String × MarkType) :=
  if m.any (fun p => p.1 = gid) then
    m.map (fun p => if p.1 = gid then (gid, ty) else p)
  else m ++ [(gid, ty)]

/-- The rendered mark of a group: `groupMarks[group.id] ?? null`. -/
def renderedMark (m : List (String × MarkType)) (gid : String) : MarkType :=
  match (m.find? (fun p => p.1 = gid)).map (fun p => p.2) with
  | some ty => ty
  | none => none

/-- A progress-bar mark (`TranscriptMark` in the video player). -/
structure TranscriptMark where
  groupId : String
  type : MarkKind
  timeMs : Int
  text : String
deriving DecidableEq

/-- `handleTranscriptMarkChange` (video player): a `null` type removes
every mark of the group; otherwise upsert (replace the existing entry
for the group in place, else append). -/
def handleTranscriptMarkChange (marks : List TranscriptMark)
    (gid : String) (ty : MarkType) (timeMs : Int) (text : String) :
    List TranscriptMark :=
  match ty with
  | none => marks.filter (fun m => ¬(m.groupId = gid))
  | some k =>
    let nextItem : TranscriptMark := ⟨gid, k, timeMs, text⟩
    if marks.any (fun m => m.groupId = gid) then
      marks.map (fun m => if m.groupId = gid then nextItem else m)
    else marks ++ [nextItem]

/-! ### Selection marks (`dispatchMark` in the selection menu) -/

/-- JS `Math.round` (half-up, ties toward +∞). -/
def jsRound (q : ℚ) : Int := ⌊q + 1 / 2⌋

/-- A selection text mark as stored in `textMarks`. -/
structure TextMark where
  id : String
  groupId : String
  startTimeMs : ℚ
  endTimeMs : ℚ
  text : String
  type : MarkKind
  color : String
deriving DecidableEq

/-- The selection-menu state consulted by `dispatchMark`. -/
structure SelectionMenuState where
  startTimeMs : ℚ
  text : String
  anchorGroupId : Option String
deriving DecidableEq

/-- `markColors[type]`. -/
def markColor : MarkKind → String
  | .important => "#60a5fa"
  | .question => "#f472b6"
  | .todo => "#fbbf24"

/-- The mark id `` `sel-${Math.round(selectionMenu.startTimeMs)}` ``. -/
def selMarkId (menu : SelectionMenuState) : String :=
  "sel-" ++ toString (jsRound menu.startTimeMs)

/-- `dispatchMark`: when the type is non-null and an anchor group exists,
append the new mark (start = the interpolated selection start, end =
start + 5000, id = `sel-` + rounded start); otherwise leave the list
unchanged. -/
def dispatchMark (menu : SelectionMenuState) (ty : MarkType)
    (textMarks : List TextMark) : List TextMark :=
  match ty, menu.anchorGroupId with
  | some k, some gid =>
    textMarks ++
      [⟨selMarkId menu, gid, menu.startTimeMs, menu.startTimeMs + 5000,
        menu.text, k, markColor k⟩]
  | _, _ => textMarks

/-- The shape every mark added by `dispatchMark` has: a fixed 5-second
span from the interpolated selection start, and the id `sel-` followed
by the rounded start time. -/
def GoodTextMark (m : TextMark) : Prop :=
  m.endTimeMs = m.startTimeMs + 5000 ∧ m.id = "sel-" ++ toString (jsRound m.startTimeMs)

/-! ### Selection start-time interpolation (`computeSelectionStartTimeMs`) -/

/-- The loop of `computeSelectionStartTimeMs`: walk the group's sentences
keeping the cumulative character cursor; on the first sentence whose
range reaches the prefix length, interpolate by character ratio. -/
def selTimeLoop (p : Nat) (startTime : Int) : List Sentence → Nat → ℚ
  | [], _ => (startTime : ℚ)
  | s :: rest, cursor =>
    let len := s.tc.length
    let nextCursor := cursor + len
    if p ≤ nextCursor then
      let offsetInSentence : Nat := max 0 (p - cursor)
      let ratio : ℚ := if len > 0 then (offsetInSentence : ℚ) / (len : ℚ) else 0
      (s.bt : ℚ) + ratio * ((s.et : ℚ) - (s.bt : ℚ))
    else selTimeLoop p startTime rest nextCursor

/-- `computeSelectionStartTimeMs` for a prefix of `p` characters of the
group's concatenated text. -/
def computeSelectionStartTimeMs (g : SpeakerGroup) (p : Nat) : ℚ :=
  selTimeLoop p g.startTime g.sentences 0

/-- Reference locator (from the spec's words): the first sentence whose
cumulative character range reaches `p`, with the total length `c` of the
preceding sentences' texts. -/
def locateSel (p : Nat) : List Sentence → Nat → Option (Sentence × Nat)
  | [], _ => none
  | s :: rest, c => if p ≤ c + s.tc.length then some (s, c) else locateSel p rest (c + s.tc.length)

/-- Total character length of the sentences' texts. -/
def totalTcLength (l : List Sentence) : Nat := (l.map (fun s => s.tc.length)).sum

/-! ### Time utilities (`formatTime` / `parseTime` in `utils/time.ts`)

JS strings are modelled as `List Char` here because `parseTime` splits on
`':'`. -/

/-- `String.prototype.padStart(2, '0')`. -/
def padStart2 (l : List Char) : List Char :=
  if l.length ≥ 2 then l
  else if l.length = 1 then '0' :: l
  else ['0', '0']

/-- `formatTime`: `MM:SS` below one hour, `H…H:MM:SS` from one hour on;
`0` (JS falsy) and negatives render as `"00:00"`. -/
def formatTime (seconds : Nat) : List Char :=
  if seconds = 0 then ['0', '0', ':', '0', '0']
  else
    let hours := seconds / 3600
    let minutes := seconds % 3600 / 60
    let secs := seconds % 60
    if hours > 0 then
      padStart2 (natToChars hours) ++ ':' ::
        (padStart2 (natToChars minutes) ++ ':' :: padStart2 (natToChars secs))
    else padStart2 (natToChars minutes) ++ ':' :: padStart2 (natToChars secs)

/-- `String.prototype.split(':')`. -/
def splitColon : List Char → List (List Char)
  | [] => [[]]
  | c :: rest =>
    if c = ':' then [] :: splitColon rest
    else
      match splitColon rest with
      | [] => [[c]]
      | p :: ps => (c :: p) :: ps

/-- JS `Number` on the digit-only strings produced by `formatTime`. -/
def jsNumberOfDigits (l : List Char) : Nat :=
  decValue (l.map (fun c => c.toNat - 48))

/-- `parseTime`: split on `':'` and weight the parts by 3600/60/1. -/
def parseTime (l : List Char) : Nat :=
  match splitColon l with
  | [a, b, c] => jsNumberOfDigits a * 3600 + jsNumberOfDigits b * 60 + jsNumberOfDigits c
  | [a, b] => jsNumberOfDigits a * 60 + jsNumberOfDigits b
  | a :: _ => jsNumberOfDigits a
  | [] => 0

/-! ## Helper lemmas -/

/-- Object spread on a key not equal to the head key walks past the head. -/
theorem setGroupMark_cons {p : String × MarkType} {m : List (String × MarkType)}
    {gid : String} {ty : MarkType} (hp : p.1 ≠ gid) :
    setGroupMark (p :: m) gid ty = p :: setGroupMark m gid ty := by
  unfold setGroupMark
  simp only [List.any_cons, hp, decide_eq_true_eq, List.map_cons, if_neg hp]
  by_cases h : m.any (fun q => q.1 = gid)
  · simp [h, hp]
  · simp [h, hp]

/-- The rendered mark after `{ ...prev, [gid]: ty }` is `ty`. -/
theorem renderedMark_setGroupMark (m : List (String × MarkType)) (gid : String)
    (ty : MarkType) : renderedMark (setGroupMark m gid ty) gid = ty := by
  induction m with
  | nil => simp [setGroupMark, renderedMark]
  | cons p rest ih =>
    by_cases hp : p.1 = gid
    · have hset : setGroupMark (p :: rest) gid ty =
          (gid, ty) :: rest.map (fun q => if q.1 = gid then (gid, ty) else q) := by
        unfold setGroupMark
        simp [hp]
      rw [hset]
      simp [renderedMark]
    · rw [setGroupMark_cons hp]
      unfold renderedMark at ih ⊢
      rw [List.find?_cons_of_neg _ (by simpa using hp)]
      exact ih

theorem sampler_trace : samplerRun [0, 50, 100, 170, 200] 0 = (200, 1) := by decide

theorem decValue_append (l : List Nat) (d : Nat) :
    decValue (l ++ [d]) = decValue l * 10 + d := by
  simp [decValue, List.foldl_append]

theorem decValue_natDigits (n : Nat) : decValue (natDigits n) = n := by
  induction n using Nat.strong_induction_on with
  | _ n ih =>
    unfold natDigits
    by_cases h : n < 10
    · simp [h, decValue]
    · rw [dif_neg h, decValue_append, ih (n / 10) (Nat.div_lt_self (by omega) (by omega))]
      omega

theorem natDigits_lt10 (n : Nat) : ∀ d ∈ natDigits n, d < 10 := by
  induction n using Nat.strong_induction_on with
  | _ n ih =>
    unfold natDigits
    by_cases h : n < 10
    · simp [h]
    · rw [dif_neg h]
      intro d hd
      rcases List.mem_append.mp hd with hd | hd
      · exact ih (n / 10) (Nat.div_lt_self (by omega) (by omega)) d hd
      · rcases List.mem_singleton.mp hd with rfl
        omega

theorem natDigits_ne_nil (n : Nat) : natDigits n ≠ [] := by
  unfold natDigits
  by_cases h : n < 10
  · simp [h]
  · rw [dif_neg h]
    simp

theorem digitChar10_spec :
    ∀ d, d < 10 → (digitChar10 d).toNat - 48 = d ∧ digitChar10 d ≠ ':' := by decide

theorem jsNumber_natToChars (n : Nat) : jsNumberOfDigits (natToChars n) = n := by
  unfold jsNumberOfDigits natToChars
  rw [List.map_map]
  have hcongr : (natDigits n).map ((fun c => c.toNat - 48) ∘ digitChar10) =
      (natDigits n).map id :=
    List.map_congr_left (fun d hd => (digitChar10_spec d (natDigits_lt10 n d hd)).1)
  rw [hcongr, List.map_id]
  exact decValue_natDigits n

theorem jsNumber_padStart2 (n : Nat) :
    jsNumberOfDigits (padStart2 (natToChars n)) = n := by
  unfold padStart2
  by_cases h2 : (natToChars n).length ≥ 2
  · rw [if_pos h2]
    exact jsNumber_natToChars n
  · rw [if_neg h2]
    have hpos : 0 < (natToChars n).length :=
      List.length_pos.mpr (by simpa [natToChars] using natDigits_ne_nil n)
    have h1 : (natToChars n).length = 1 := by omega
    rw [if_pos h1]
    have hz : jsNumberOfDigits ('0' :: natToChars n) = jsNumberOfDigits (natToChars n) := rfl
    rw [hz]
    exact jsNumber_natToChars n

theorem padStart2_no_colon (n : Nat) : ∀ c ∈ padStart2 (natToChars n), c ≠ ':' := by
  have base : ∀ c ∈ natToChars n, c ≠ ':' := by
    intro c hc
    rcases List.mem_map.mp hc with ⟨d, hd, rfl⟩
    exact (digitChar10_spec d (natDigits_lt10 n d hd)).2
  intro c hc
  unfold padStart2 at hc
  split at hc
  · exact base c hc
  · split at hc
    · rcases List.mem_cons.mp hc with rfl | hc
      · decide
      · exact base c hc
    · simp only [List.mem_cons, List.mem_singleton] at hc
      rcases hc with rfl | rfl | h
      · decide
      · decide
      · cases h

theorem splitColon_no_colon (l : List Char) (h : ∀ c ∈ l, c ≠ ':') :
    splitColon l = [l] := by
  induction l with
  | nil => rfl
  | cons c rest ih =>
    unfold splitColon
    rw [if_neg (h c (List.mem_cons_self c rest))]
    rw [ih (fun x hx => h x (List.mem_cons_of_mem c hx))]

theorem splitColon_append (a r : List Char) (h : ∀ c ∈ a, c ≠ ':') :
    splitColon (a ++ ':' :: r) = a :: splitColon r := by
  induction a with
  | nil => simp [splitColon]
  | cons c rest ih =>
    have hstep : splitColon ((c :: rest) ++ ':' :: r) =
        match splitColon (rest ++ ':' :: r) with
        | [] => [[c]]
        | p :: ps => (c :: p) :: ps := by
      show (if c = ':' then [] :: splitColon (rest ++ ':' :: r)
          else match splitColon (rest ++ ':' :: r) with
            | [] => [[c]]
            | p :: ps => (c :: p) :: ps) =
        match splitColon (rest ++ ':' :: r) with
        | [] => [[c]]
        | p :: ps => (c :: p) :: ps
      rw [if_neg (h c (List.mem_cons_self c rest))]
    rw [hstep, ih (fun x hx => h x (List.mem_cons_of_mem c hx))]

theorem strConcat_append (l1 l2 : List String) :
    strConcat (l1 ++ l2) = strConcat l1 ++ strConcat l2 := by
  apply String.ext
  simp [strConcat, String.data_append]

theorem strConcat_singleton (s : String) : strConcat [s] = s := by
  apply String.ext
  simp [strConcat]

theorem newGroup_wf (s : Sentence) : GroupWF (newGroup s) := by
  refine ⟨s, [], rfl, rfl, rfl, rfl, rfl, ?_, ?_⟩
  · intro x hx
    rcases List.mem_singleton.mp hx with rfl
    rfl
  · exact (strConcat_singleton s.tc).symm

theorem extendGroup_wf (g : SpeakerGroup) (s : Sentence) (hwf : GroupWF g)
    (hsp : g.speakerId = s.si) : GroupWF (extendGroup g s) := by
  obtain ⟨h, t, hsen, hid, hspk, hst, _hen, hall, htxt⟩ := hwf
  refine ⟨h, t ++ [s], ?_, hid, hspk, hst, ?_, ?_, ?_⟩
  · show g.sentences ++ [s] = h :: (t ++ [s])
    rw [hsen]
    rfl
  · show s.et = ((g.sentences ++ [s]).getLastD dfltSentence).et
    rw [List.getLastD_concat]
  · intro x hx
    rcases List.mem_append.mp hx with hx | hx
    · exact hall x hx
    · rcases List.mem_singleton.mp hx with rfl
      exact hsp.symm
  · show g.text ++ s.tc = strConcat ((g.sentences ++ [s]).map Sentence.tc)
    rw [List.map_append, strConcat_append, htxt]
    simp [strConcat_singleton]

theorem sgLoop_spec (rest : List Sentence) : ∀ cur, GroupWF cur →
    (∀ g ∈ sgLoop cur rest, GroupWF g) ∧
    ((sgLoop cur rest).map (fun g => g.sentences)).flatten = cur.sentences ++ rest ∧
    ((sgLoop cur rest).map (fun g => g.speakerId)).Chain' (· ≠ ·) ∧
    (sgLoop cur rest).length = changesFrom cur.speakerId rest + 1 ∧
    (sgLoop cur rest).head?.map (fun g => g.speakerId) = some cur.speakerId := by
  induction rest with
  | nil =>
    intro cur hwf
    have h0 : sgLoop cur [] = [cur] := rfl
    rw [h0]
    exact ⟨fun g hg => by rcases List.mem_singleton.mp hg with rfl; exact hwf,
      by simp, by simp, by simp [changesFrom], rfl⟩
  | cons s rest ih =>
    intro cur hwf
    by_cases hsp : cur.speakerId ≠ s.si
    · have hunf : sgLoop cur (s :: rest) = cur :: sgLoop (newGroup s) rest := by
        show (if cur.speakerId ≠ s.si then cur :: sgLoop (newGroup s) rest
          else sgLoop (extendGroup cur s) rest) = _
        rw [if_pos hsp]
      obtain ⟨ihwf, ihjoin, ihchain, ihlen, ihhead⟩ := ih (newGroup s) (newGroup_wf s)
      rw [hunf]
      refine ⟨?_, ?_, ?_, ?_, ?_⟩
      · intro g hg
        rcases List.mem_cons.mp hg with rfl | hg
        · exact hwf
        · exact ihwf g hg
      · simp only [List.map_cons, List.flatten_cons, ihjoin]
        rfl
      · rw [List.map_cons, List.chain'_cons']
        refine ⟨?_, ihchain⟩
        intro y hy
        rw [List.head?_map, ihhead] at hy
        rcases Option.mem_some_iff.mp hy with rfl
        exact hsp
      · rw [List.length_cons, ihlen]
        show changesFrom s.si rest + 1 + 1 = changesFrom cur.speakerId (s :: rest) + 1
        show changesFrom s.si rest + 1 + 1 =
          ((if cur.speakerId ≠ s.si then 1 else 0) + changesFrom s.si rest) + 1
        rw [if_pos hsp]
        omega
      · simp
    · push_neg at hsp
      have hunf : sgLoop cur (s :: rest) = sgLoop (extendGroup cur s) rest := by
        show (if cur.speakerId ≠ s.si then cur :: sgLoop (newGroup s) rest
          else sgLoop (extendGroup cur s) rest) = _
        rw [if_neg (not_not_intro hsp)]
      obtain ⟨ihwf, ihjoin, ihchain, ihlen, ihhead⟩ :=
        ih (extendGroup cur s) (extendGroup_wf cur s hwf hsp)
      rw [hunf]
      refine ⟨ihwf, ?_, ihchain, ?_, ?_⟩
      · rw [ihjoin]
        show (cur.sentences ++ [s]) ++ rest = cur.sentences ++ s :: rest
        rw [List.append_assoc]
        rfl
      · rw [ihlen]
        show changesFrom (extendGroup cur s).speakerId rest + 1 =
          changesFrom cur.speakerId (s :: rest) + 1
        have hspk : (extendGroup cur s).speakerId = s.si := hsp
        rw [hspk]
        show changesFrom s.si rest + 1 =
          ((if cur.speakerId ≠ s.si then 1 else 0) + changesFrom s.si rest) + 1
        rw [if_neg (not_not_intro hsp)]
        omega
      · rw [ihhead]
        rfl

theorem speakerChanges_eq (s : Sentence) (rest : List Sentence) :
    speakerChanges (s :: rest) = changesFrom s.si rest := by
  induction rest generalizing s with
  | nil => rfl
  | cons b r ih =>
    show (if s.si ≠ b.si then 1 else 0) + speakerChanges (b :: r) =
      (if s.si ≠ b.si then 1 else 0) + changesFrom b.si r
    rw [ih b]

theorem selTimeLoop_none (p : Nat) (st : Int) :
    ∀ (l : List Sentence) (c : Nat), locateSel p l c = none →
      selTimeLoop p st l c = (st : ℚ) := by
  intro l
  induction l with
  | nil => intro c _; rfl
  | cons s rest ih =>
    intro c hnone
    unfold locateSel at hnone
    by_cases hc : p ≤ c + s.tc.length
    · rw [if_pos hc] at hnone
      cases hnone
    · rw [if_neg hc] at hnone
      show (if p ≤ c + s.tc.length then _ else selTimeLoop p st rest (c + s.tc.length)) = _
      rw [if_neg hc]
      exact ih _ hnone

theorem locateSel_none_of_gt (p : Nat) :
    ∀ (l : List Sentence) (c : Nat), c + totalTcLength l < p → locateSel p l c = none := by
  intro l
  induction l with
  | nil => intro c _; rfl
  | cons s rest ih =>
    intro c hlt
    unfold totalTcLength at hlt
    simp only [List.map_cons, List.sum_cons] at hlt
    unfold locateSel
    rw [if_neg (by omega)]
    exact ih _ (by unfold totalTcLength; omega)

theorem locateSel_some_spec (p : Nat) :
    ∀ (l : List Sentence) (c : Nat) (s : Sentence) (cc : Nat),
      locateSel p l c = some (s, cc) → p ≤ cc + s.tc.length := by
  intro l
  induction l with
  | nil => intro c s cc h; cases h
  | cons s0 rest ih =>
    intro c s cc h
    unfold locateSel at h
    by_cases hc : p ≤ c + s0.tc.length
    · rw [if_pos hc] at h
      rcases Option.some_inj.mp h with h'
      obtain ⟨rfl, rfl⟩ : s0 = s ∧ c = cc := by
        constructor <;> cases h' <;> rfl
      exact hc
    · rw [if_neg hc] at h
      exact ih _ s cc h

theorem selTimeLoop_some (p : Nat) (st : Int) :
    ∀ (l : List Sentence) (c : Nat) (s : Sentence) (cc : Nat),
      locateSel p l c = some (s, cc) →
      selTimeLoop p st l c =
        (s.bt : ℚ) +
          (if s.tc.length > 0 then (((p - cc : Nat) : ℚ) / (s.tc.length : ℚ)) else 0) *
            ((s.et : ℚ) - (s.bt : ℚ)) := by
  intro l
  induction l with
  | nil => intro c s cc h; cases h
  | cons s0 rest ih =>
    intro c s cc h
    unfold locateSel at h
    by_cases hc : p ≤ c + s0.tc.length
    · rw [if_pos hc] at h
      rcases Option.some_inj.mp h with h'
      obtain ⟨rfl, rfl⟩ : s0 = s ∧ c = cc := by
        constructor <;> cases h' <;> rfl
      show (if p ≤ c + s0.tc.length then _ else _) = _
      rw [if_pos hc]
      simp [Nat.zero_max]
    · rw [if_neg hc] at h
      show (if p ≤ c + s0.tc.length then _ else selTimeLoop p st rest (c + s0.tc.length)) = _
      rw [if_neg hc]
      exact ih _ s cc h

/-- Monotone `bt` under indexed access, from sortedness. -/
theorem sorted_getD_mono (arr : List Sentence)
    (hsort : List.Pairwise (fun a b => a.bt ≤ b.bt) arr) {i j : Nat}
    (hij : i ≤ j) (hj : j < arr.length) :
    (arr.getD i dfltSentence).bt ≤ (arr.getD j dfltSentence).bt := by
  rcases Nat.eq_or_lt_of_le hij with rfl | hlt
  · exact le_refl _
  · rw [List.getD_eq_getElem _ _ (by omega), List.getD_eq_getElem _ _ hj]
    exact List.pairwise_iff_getElem.mp hsort i j (by omega) hj hlt

/-- The binary-search loop invariant: the candidate is the index just
below `left` when it exists and carries `bt ≤ t`; everything above
`right` has `bt > t`.  The loop returns the greatest index with
`bt ≤ t`, or `none` when there is none. -/
theorem bsGo_correct (arr : List Sentence) (t : Int)
    (hsort : List.Pairwise (fun a b => a.bt ≤ b.bt) arr) :
    ∀ (fuel left right : Nat) (cand : Option Nat),
      right + 1 - left ≤ fuel →
      right + 1 ≤ arr.length →
      (cand = none → left = 0) →
      (∀ c, cand = some c → c + 1 = left ∧ c < arr.length ∧
        (arr.getD c dfltSentence).bt ≤ t) →
      (∀ j, right < j → j < arr.length → t < (arr.getD j dfltSentence).bt) →
      (bsGo arr t left right cand = none →
        ∀ j, j < arr.length → t < (arr.getD j dfltSentence).bt) ∧
      (∀ k, bsGo arr t left right cand = some k →
        k < arr.length ∧ (arr.getD k dfltSentence).bt ≤ t ∧
          ∀ j, k < j → j < arr.length → t < (arr.getD j dfltSentence).bt) := by
  intro fuel
  induction fuel with
  | zero =>
    intro left right cand hfuel hlen hnone hsome hright
    have hlr : ¬ left ≤ right := by omega
    rw [bsGo, if_neg hlr]
    constructor
    · intro hc j hj
      have h0 : left = 0 := hnone hc
      exact absurd (by omega : left ≤ right) hlr
    · intro k hk
      obtain ⟨h1, h2, h3⟩ := hsome k hk
      exact ⟨h2, h3, fun j hjk hjl => hright j (by omega) hjl⟩
  | succ n ih =>
    intro left right cand hfuel hlen hnone hsome hright
    by_cases hlr : left ≤ right
    · have hunf : bsGo arr t left right cand =
          (if (arr.getD ((left + right) / 2) dfltSentence).bt ≤ t then
            bsGo arr t ((left + right) / 2 + 1) right (some ((left + right) / 2))
          else if (left + right) / 2 = 0 then cand
          else bsGo arr t left ((left + right) / 2 - 1) cand) := by
        rw [bsGo, if_pos hlr]
      by_cases hbt : (arr.getD ((left + right) / 2) dfltSentence).bt ≤ t
      · rw [hunf, if_pos hbt]
        exact ih ((left + right) / 2 + 1) right (some ((left + right) / 2)) (by omega) hlen
          (fun h => by cases h)
          (fun c hc => by
            obtain rfl : (left + right) / 2 = c := Option.some_inj.mp hc
            exact ⟨rfl, by omega, hbt⟩)
          hright
      · rw [hunf, if_neg hbt]
        by_cases hm0 : (left + right) / 2 = 0
        · rw [if_pos hm0]
          have ht0 : t < (arr.getD 0 dfltSentence).bt := by
            have h := not_le.mp hbt
            rwa [hm0] at h
          constructor
          · intro _ j hj
            exact lt_of_lt_of_le ht0 (sorted_getD_mono arr hsort (Nat.zero_le j) hj)
          · intro k hk
            obtain ⟨h1, _, _⟩ := hsome k hk
            exact absurd h1 (by omega)
        · rw [if_neg hm0]
          apply ih left ((left + right) / 2 - 1) cand (by omega) (by omega) hnone hsome
          intro j hj hjl
          have hjm : (left + right) / 2 ≤ j := by omega
          exact lt_of_lt_of_le (not_le.mp hbt) (sorted_getD_mono arr hsort hjm hjl)
    · rw [bsGo, if_neg hlr]
      constructor
      · intro hc j hj
        have h0 : left = 0 := hnone hc
        exact absurd (by omega : left ≤ right) hlr
      · intro k hk
        obtain ⟨h1, h2, h3⟩ := hsome k hk
        exact ⟨h2, h3, fun j hjk hjl => hright j (by omega) hjl⟩

/-- `getLast?` of the `bt ≤ t` filter when exactly the positions up to
`k` satisfy the predicate. -/
theorem getLast?_filter_boundary (t : Int) :
    ∀ (arr : List Sentence) (k : Nat), k < arr.length →
      (∀ j, j < arr.length → ((arr.getD j dfltSentence).bt ≤ t ↔ j ≤ k)) →
      (arr.filter (fun s => s.bt ≤ t)).getLast? = some (arr.getD k dfltSentence) := by
  intro arr
  induction arr with
  | nil =>
    intro k hk _
    exact absurd hk (by simp)
  | cons a rest ih =>
    intro k hk hb
    have ha : a.bt ≤ t := by
      have h0 := hb 0 (by simp)
      exact h0.mpr (Nat.zero_le k)
    rw [List.filter_cons_of_pos (by simpa using ha)]
    cases k with
    | zero =>
      have hrest : rest.filter (fun s => s.bt ≤ t) = [] := by
        rw [List.filter_eq_nil_iff]
        intro x hx
        rcases List.mem_iff_getElem.mp hx with ⟨i, hi, rfl⟩
        have hgd : (a :: rest).getD (i + 1) dfltSentence = rest[i] := by
          show rest.getD i dfltSentence = rest[i]
          exact List.getD_eq_getElem rest dfltSentence hi
        have hiff := hb (i + 1) (by simp; omega)
        rw [hgd] at hiff
        simp only [decide_eq_true_eq]
        intro hle
        have hc := hiff.mp hle
        omega
      rw [hrest, List.getLast?_cons]
      rfl
    | succ k' =>
      have hb' : ∀ j, j < rest.length → ((rest.getD j dfltSentence).bt ≤ t ↔ j ≤ k') := by
        intro j hj
        have hiff := hb (j + 1) (by simp; omega)
        exact ⟨fun hle => by have hc := hiff.mp hle; omega,
          fun hjk => hiff.mpr (by omega)⟩
      have hk' : k' < rest.length := by
        simp at hk
        omega
      rw [List.getLast?_cons, ih k' hk' hb']
      rfl

theorem groupIdOf_injective : Function.Injective groupIdOf := by
  intro a b hab
  have hab' : "group-" ++ natToString a = "group-" ++ natToString b := hab
  have hdata := congrArg String.data hab'
  rw [String.data_append, String.data_append] at hdata
  have h3 : natToChars a = natToChars b := List.append_cancel_left hdata
  have h5 : natDigits a = natDigits b := by
    have hA : (natDigits a).map ((fun c => c.toNat - 48) ∘ digitChar10) =
        (natDigits a).map id :=
      List.map_congr_left (fun d hd => (digitChar10_spec d (natDigits_lt10 a d hd)).1)
    have hB : (natDigits b).map ((fun c => c.toNat - 48) ∘ digitChar10) =
        (natDigits b).map id :=
      List.map_congr_left (fun d hd => (digitChar10_spec d (natDigits_lt10 b d hd)).1)
    have hcomp : (natDigits a).map ((fun c => c.toNat - 48) ∘ digitChar10) =
        (natDigits b).map ((fun c => c.toNat - 48) ∘ digitChar10) := by
      rw [← List.map_map, ← List.map_map]
      unfold natToChars at h3
      rw [h3]
    rw [hA, hB, List.map_id, List.map_id] at hcomp
    exact hcomp
  have hv := congrArg decValue h5
  rw [decValue_natDigits, decValue_natDigits] at hv
  exact hv

/-- The binary-search loop only ever returns an in-bounds candidate with
`bt ≤ t` (no sortedness needed). -/
theorem bsGo_some_basic (arr : List Sentence) (t : Int) :
    ∀ (fuel left right : Nat) (cand : Option Nat),
      right + 1 - left ≤ fuel →
      right + 1 ≤ arr.length →
      (∀ c, cand = some c → c < arr.length ∧ (arr.getD c dfltSentence).bt ≤ t) →
      ∀ k, bsGo arr t left right cand = some k →
        k < arr.length ∧ (arr.getD k dfltSentence).bt ≤ t := by
  intro fuel
  induction fuel with
  | zero =>
    intro left right cand hfuel hlen hsome k hk
    have hlr : ¬ left ≤ right := by omega
    rw [bsGo, if_neg hlr] at hk
    exact hsome k hk
  | succ n ih =>
    intro left right cand hfuel hlen hsome k hk
    by_cases hlr : left ≤ right
    · have hunf : bsGo arr t left right cand =
          (if (arr.getD ((left + right) / 2) dfltSentence).bt ≤ t then
            bsGo arr t ((left + right) / 2 + 1) right (some ((left + right) / 2))
          else if (left + right) / 2 = 0 then cand
          else bsGo arr t left ((left + right) / 2 - 1) cand) := by
        rw [bsGo, if_pos hlr]
      rw [hunf] at hk
      by_cases hbt : (arr.getD ((left + right) / 2) dfltSentence).bt ≤ t
      · rw [if_pos hbt] at hk
        exact ih ((left + right) / 2 + 1) right (some ((left + right) / 2)) (by omega) hlen
          (fun c hc => by
            obtain rfl : (left + right) / 2 = c := Option.some_inj.mp hc
            exact ⟨by omega, hbt⟩) k hk
      · rw [if_neg hbt] at hk
        by_cases hm0 : (left + right) / 2 = 0
        · rw [if_pos hm0] at hk
          exact hsome k hk
        · rw [if_neg hm0] at hk
          exact ih left ((left + right) / 2 - 1) cand (by omega) (by omega) hsome k hk
    · rw [bsGo, if_neg hlr] at hk
      exact hsome k hk

/-- Whatever `currentSentence` returns is a member whose span contains
the query time (no sortedness needed). -/
theorem findActiveSentence_some (arr : List Sentence) (t : Int) (s : Sentence)
    (h : findActiveSentence arr t = some s) : s ∈ arr ∧ s.bt ≤ t ∧ t ≤ s.et := by
  unfold findActiveSentence at h
  by_cases hlen : arr.length = 0
  · rw [if_pos hlen] at h
    cases h
  · rw [if_neg hlen] at h
    cases hres : bsGo arr t 0 (arr.length - 1) none with
    | none =>
      rw [hres] at h
      cases h
    | some c =>
      rw [hres] at h
      have h' : (if t ≤ (arr.getD c dfltSentence).et then some (arr.getD c dfltSentence)
          else none) = some s := h
      obtain ⟨hc, hbt⟩ := bsGo_some_basic arr t arr.length 0 (arr.length - 1) none
        (by omega) (by omega) (fun c hc => by cases hc) c hres
      by_cases het : t ≤ (arr.getD c dfltSentence).et
      · rw [if_pos het] at h'
        obtain rfl : arr.getD c dfltSentence = s := Option.some_inj.mp h'
        refine ⟨?_, hbt, het⟩
        rw [List.getD_eq_getElem arr dfltSentence hc]
        exact List.getElem_mem hc
      · rw [if_neg het] at h'
        cases h'

theorem mapSet_cons {p : Nat × String} {m : List (Nat × String)} {k : Nat} {v : String}
    (hp : p.1 ≠ k) : mapSet (p :: m) k v = p :: mapSet m k v := by
  unfold mapSet
  simp only [List.any_cons, hp, decide_eq_true_eq, List.map_cons, if_neg hp]
  by_cases h : m.any (fun q => q.1 = k)
  · simp [h, hp]
  · simp [h, hp]

theorem mapGet_cons_ne {p : Nat × String} {m : List (Nat × String)} {k : Nat}
    (hp : p.1 ≠ k) : mapGet (p :: m) k = mapGet m k := by
  unfold mapGet
  rw [List.find?_cons_of_neg _ (by simpa using hp)]

theorem mapGet_mapSet_self (m : List (Nat × String)) (k : Nat) (v : String) :
    mapGet (mapSet m k v) k = some v := by
  induction m with
  | nil =>
    show mapGet ([] ++ [(k, v)]) k = some v
    unfold mapGet
    rw [List.nil_append, List.find?_cons_of_pos _ (by simp)]
    rfl
  | cons p rest ih =>
    by_cases hp : p.1 = k
    · have hset : mapSet (p :: rest) k v =
          (k, v) :: rest.map (fun q => if q.1 = k then (k, v) else q) := by
        unfold mapSet
        simp [hp]
      rw [hset]
      unfold mapGet
      rw [List.find?_cons_of_pos _ (by simp)]
      rfl
    · rw [mapSet_cons hp, mapGet_cons_ne hp]
      exact ih

theorem mapGet_map_overwrite (rest : List (Nat × String)) (k : Nat) (v : String)
    (k' : Nat) (h : k ≠ k') :
    mapGet (rest.map (fun q => if q.1 = k then (k, v) else q)) k' = mapGet rest k' := by
  induction rest with
  | nil => rfl
  | cons q rest ih =>
    by_cases hq : q.1 = k
    · rw [List.map_cons, if_pos hq, mapGet_cons_ne (show ((k, v) : Nat × String).1 ≠ k' from h),
        mapGet_cons_ne (show q.1 ≠ k' by rw [hq]; exact h)]
      exact ih
    · rw [List.map_cons, if_neg hq]
      by_cases hq' : q.1 = k'
      · unfold mapGet
        rw [List.find?_cons_of_pos _ (by simpa using hq'),
          List.find?_cons_of_pos _ (by simpa using hq')]
      · rw [mapGet_cons_ne hq', mapGet_cons_ne hq']
        exact ih

theorem mapGet_mapSet_ne (m : List (Nat × String)) (k : Nat) (v : String) (k' : Nat)
    (h : k ≠ k') : mapGet (mapSet m k v) k' = mapGet m k' := by
  induction m with
  | nil =>
    show mapGet ([] ++ [(k, v)]) k' = mapGet [] k'
    rw [List.nil_append, mapGet_cons_ne (show ((k, v) : Nat × String).1 ≠ k' from h)]
  | cons p rest ih =>
    by_cases hp : p.1 = k
    · have hset : mapSet (p :: rest) k v =
          (k, v) :: rest.map (fun q => if q.1 = k then (k, v) else q) := by
        unfold mapSet
        simp [hp]
      rw [hset, mapGet_cons_ne (show ((k, v) : Nat × String).1 ≠ k' from h),
        mapGet_map_overwrite rest k v k' h,
        mapGet_cons_ne (show p.1 ≠ k' by rw [hp]; exact h)]
    · rw [mapSet_cons hp]
      by_cases hp' : p.1 = k'
      · unfold mapGet
        rw [List.find?_cons_of_pos _ (by simpa using hp'),
          List.find?_cons_of_pos _ (by simpa using hp')]
      · rw [mapGet_cons_ne hp', mapGet_cons_ne hp']
        exact ih

theorem mapGet_foldl_pairs_miss (pairs : List (Nat × String)) :
    ∀ (m : List (Nat × String)) (k : Nat), (∀ p ∈ pairs, p.1 ≠ k) →
      mapGet (pairs.foldl (fun acc p => mapSet acc p.1 p.2) m) k = mapGet m k := by
  induction pairs with
  | nil => intro m k _; rfl
  | cons p rest ih =>
    intro m k hmiss
    rw [List.foldl_cons, ih (mapSet m p.1 p.2) k (fun q hq => hmiss q (List.mem_cons_of_mem _ hq)),
      mapGet_mapSet_ne m p.1 p.2 k (hmiss p (List.mem_cons_self p rest))]

theorem mapGet_foldl_pairs_found (pairs : List (Nat × String)) :
    ∀ (m : List (Nat × String)) (k : Nat) (v : String),
      (k, v) ∈ pairs → (pairs.map Prod.fst).Nodup →
      mapGet (pairs.foldl (fun acc p => mapSet acc p.1 p.2) m) k = some v := by
  induction pairs with
  | nil => intro m k v hm; cases hm
  | cons p rest ih =>
    intro m k v hm hnd
    rw [List.map_cons, List.nodup_cons] at hnd
    rw [List.foldl_cons]
    rcases List.mem_cons.mp hm with rfl | hm'
    · rw [mapGet_foldl_pairs_miss rest (mapSet m k v) k
        (fun q hq hqk => hnd.1 (by rw [← hqk]; exact List.mem_map.mpr ⟨q, hq, rfl⟩))]
      exact mapGet_mapSet_self m k v
    · exact ih (mapSet m p.1 p.2) k v hm' hnd.2

theorem sentenceIdToGroupId_eq_foldl (groups : List SpeakerGroup) :
    sentenceIdToGroupId groups =
      ((groups.map (fun g => g.sentences.map (fun s => (s.id, g.id)))).flatten).foldl
        (fun m p => mapSet m p.1 p.2) [] := by
  unfold sentenceIdToGroupId
  suffices h : ∀ init, groups.foldl
      (fun m g => g.sentences.foldl (fun m' s => mapSet m' s.id g.id) m) init =
      ((groups.map (fun g => g.sentences.map (fun s => (s.id, g.id)))).flatten).foldl
        (fun m p => mapSet m p.1 p.2) init from h []
  induction groups with
  | nil => intro init; rfl
  | cons g rest ih =>
    intro init
    simp only [List.foldl_cons, List.map_cons, List.flatten_cons, List.foldl_append]
    rw [ih, List.foldl_map]

theorem allPairs_fst (groups : List SpeakerGroup) :
    ((groups.map (fun g => g.sentences.map (fun s => (s.id, g.id)))).flatten).map Prod.fst =
      ((groups.map (fun g => g.sentences)).flatten).map Sentence.id := by
  rw [List.map_flatten, List.map_flatten]
  congr 1
  rw [List.map_map, List.map_map]
  apply List.map_congr_left
  intro g _
  simp [Function.comp, List.map_map]

theorem find?_of_nodup_ids : ∀ (gs : List SpeakerGroup) (g : SpeakerGroup),
    (gs.map (fun x => x.id)).Nodup → g ∈ gs →
    gs.find? (fun x => x.id = g.id) = some g := by
  intro gs
  induction gs with
  | nil => intro g _ hm; cases hm
  | cons a rest ih =>
    intro g hnd hmem
    rw [List.map_cons, List.nodup_cons] at hnd
    rcases List.mem_cons.mp hmem with rfl | hmem'
    · rw [List.find?_cons_of_pos _ (by simp)]
    · have ha : a.id ≠ g.id := by
        intro he
        exact hnd.1 (he ▸ List.mem_map_of_mem _ hmem')
      rw [List.find?_cons_of_neg _ (by simpa using ha)]
      exact ih g hnd.2 hmem'

theorem groups_ids_nodup : ∀ (gs : List SpeakerGroup),
    (∀ g ∈ gs, GroupWF g) →
    (((gs.map (fun g => g.sentences)).flatten).map Sentence.id).Nodup →
    (gs.map (fun g => g.id)).Nodup := by
  intro gs
  induction gs with
  | nil => intro _ _; simp
  | cons g rest ih =>
    intro hwf hnd
    rw [List.map_cons, List.flatten_cons, List.map_append, List.nodup_append] at hnd
    obtain ⟨_, hnd2, hdisj⟩ := hnd
    rw [List.map_cons, List.nodup_cons]
    constructor
    · intro hmem
      rcases List.mem_map.mp hmem with ⟨g', hg', hid⟩
      obtain ⟨h, tl, hsen, hid_g, _⟩ := hwf g (List.mem_cons_self g rest)
      obtain ⟨h', tl', hsen', hid_g', _⟩ := hwf g' (List.mem_cons_of_mem _ hg')
      have hh : h'.id = h.id := groupIdOf_injective (by rw [← hid_g, ← hid_g', hid])
      have hmem1 : h.id ∈ g.sentences.map Sentence.id := by
        rw [hsen]
        exact List.mem_map_of_mem _ (List.mem_cons_self h tl)
      have hmem2 : h.id ∈ ((rest.map (fun g => g.sentences)).flatten).map Sentence.id := by
        rw [← hh]
        apply List.mem_map_of_mem
        rw [List.mem_flatten]
        exact ⟨g'.sentences, List.mem_map_of_mem _ hg',
          by rw [hsen']; exact List.mem_cons_self h' tl'⟩
      exact hdisj hmem1 hmem2
    · exact ih (fun x hx => hwf x (List.mem_cons_of_mem _ hx)) hnd2

theorem chain_head_bt : ∀ (h : Sentence) (t : List Sentence),
    List.Chain' (fun a b => a.et ≤ b.bt) (h :: t) → (∀ x ∈ h :: t, x.bt ≤ x.et) →
    ∀ s ∈ h :: t, h.bt ≤ s.bt := by
  intro h t
  induction t generalizing h with
  | nil =>
    intro _ _ s hs
    rcases List.mem_singleton.mp hs with rfl
    exact le_refl _
  | cons b t' ih =>
    intro hch hbe s hs
    rcases List.mem_cons.mp hs with rfl | hs'
    · exact le_refl _
    · have hb : b.bt ≤ s.bt :=
        ih b (List.chain'_cons.mp hch).2
          (fun x hx => hbe x (List.mem_cons_of_mem _ hx)) s hs'
      have h1 : h.bt ≤ h.et := hbe h (List.mem_cons_self h (b :: t'))
      have h2 : h.et ≤ b.bt := (List.chain'_cons.mp hch).1
      omega

theorem chain_last_et : ∀ (l : List Sentence) (x : Sentence),
    List.Chain' (fun a b => a.et ≤ b.bt) l → (∀ y ∈ l, y.bt ≤ y.et) →
    l.getLast? = some x → ∀ s ∈ l, s.et ≤ x.et := by
  intro l
  induction l with
  | nil => intro x _ _ _ s hs; cases hs
  | cons a l' ih =>
    intro x hch hbe hlast s hs
    cases l' with
    | nil =>
      obtain rfl : a = x := by simpa using hlast
      rcases List.mem_singleton.mp hs with rfl
      exact le_refl _
    | cons b l'' =>
      rw [List.getLast?_cons_cons] at hlast
      have hch' := (List.chain'_cons.mp hch).2
      have hbe' : ∀ y ∈ b :: l'', y.bt ≤ y.et := fun y hy => hbe y (List.mem_cons_of_mem _ hy)
      rcases List.mem_cons.mp hs with rfl | hs'
      · have h1 : s.et ≤ b.bt := (List.chain'_cons.mp hch).1
        have h2 : b.bt ≤ b.et := hbe b (List.mem_cons_of_mem _ (List.mem_cons_self b l''))
        have h3 : b.et ≤ x.et := ih x hch' hbe' hlast b (List.mem_cons_self b l'')
        omega
      · exact ih x hch' hbe' hlast s hs'

theorem infix_of_mem_lists {l : List Sentence} {L : List (List Sentence)} (h : l ∈ L) :
    l <:+: L.flatten := by
  obtain ⟨L1, L2, rfl⟩ := List.append_of_mem h
  refine ⟨L1.flatten, L2.flatten, ?_⟩
  rw [List.flatten_append, List.flatten_cons, List.append_assoc]

theorem getD_append_left' {α : Type} {l₁ l₂ : List α} {d : α} {i : Nat}
    (h : i < l₁.length) : (l₁ ++ l₂).getD i d = l₁.getD i d := by
  rw [List.getD_eq_getElem _ _ (by rw [List.length_append]; omega),
    List.getD_eq_getElem _ _ h]
  exact List.getElem_append_left h

theorem getD_append_middle' {α : Type} (l₁ : List α) (x : α) (l₂ : List α) (d : α) :
    (l₁ ++ x :: l₂).getD l₁.length d = x := by
  rw [List.getD_eq_getElem _ _ (by rw [List.length_append]; simp)]
  rw [List.getElem_append_right (le_refl l₁.length)]
  simp

theorem getD_append_right' {α : Type} (l₁ l₂ : List α) (d : α) {i : Nat}
    (h : l₁.length ≤ i) (h2 : i < (l₁ ++ l₂).length) :
    (l₁ ++ l₂).getD i d = l₂.getD (i - l₁.length) d := by
  rw [List.getD_eq_getElem _ _ h2,
    List.getD_eq_getElem _ _ (by rw [List.length_append] at h2; omega)]
  exact List.getElem_append_right h

theorem getD_mem' {α : Type} {l : List α} {d : α} {i : Nat} (h : i < l.length) :
    l.getD i d ∈ l := by
  rw [List.getD_eq_getElem _ _ h]
  exact List.getElem_mem h

theorem currentAgendaIdx_of_strict (items : List AgendaItem) (t : Int) (k : Nat)
    (h : items.findIdx? (agendaStrictHit t) = some k) :
    currentAgendaIdx items t = (k : Int) := by
  unfold currentAgendaIdx jsFindIndex
  rw [h]
  rw [if_neg (show ¬((k : Int) = -1) by omega)]

theorem currentAgendaIdx_of_loose (items : List AgendaItem) (t : Int) (k : Nat)
    (hs : items.findIdx? (agendaStrictHit t) = none)
    (h : items.findIdx? (agendaLooseHit t) = some k) :
    currentAgendaIdx items t = (k : Int) := by
  unfold currentAgendaIdx jsFindIndex
  rw [hs, h]
  simp

theorem strictHit_spec {t : Int} {it : AgendaItem} (h : agendaStrictHit t it = true) :
    ∃ b e, it.time = some b ∧ it.endTime = some e ∧ b ≤ t ∧ t < e - 100 := by
  unfold agendaStrictHit at h
  cases hb : it.time with
  | none => rw [hb] at h; cases h
  | some b =>
    cases he : it.endTime with
    | none => rw [hb, he] at h; cases h
    | some e =>
      rw [hb, he] at h
      simp only [Bool.and_eq_true, decide_eq_true_eq] at h
      exact ⟨b, e, rfl, rfl, h.1, h.2⟩

theorem looseHit_spec {t : Int} {it : AgendaItem} (h : agendaLooseHit t it = true) :
    ∃ b e, it.time = some b ∧ it.endTime = some e ∧ b ≤ t ∧ t ≤ e := by
  unfold agendaLooseHit at h
  cases hb : it.time with
  | none => rw [hb] at h; cases h
  | some b =>
    cases he : it.endTime with
    | none => rw [hb, he] at h; cases h
    | some e =>
      rw [hb, he] at h
      simp only [Bool.and_eq_true, decide_eq_true_eq] at h
      exact ⟨b, e, rfl, rfl, h.1, h.2⟩

theorem strictHit_none {t : Int} {it : AgendaItem} (h : it.time = none) :
    agendaStrictHit t it = false := by
  unfold agendaStrictHit
  rw [h]

theorem looseHit_none {t : Int} {it : AgendaItem} (h : it.time = none) :
    agendaLooseHit t it = false := by
  unfold agendaLooseHit
  rw [h]

theorem jumpToPrevSegment_boundary_noop (pre post : List AgendaItem) (F : AgendaItem)
    (t bF eF : Int) (hwf : AgendaWF (pre ++ F :: post))
    (hpre : ∀ it ∈ pre, it.time = none)
    (hFb : F.time = some bF) (hFe : F.endTime = some eF)
    (h1 : bF ≤ t) (h2 : t ≤ eF)
    (hpost : ∀ it ∈ post, it.time ≠ some t) :
    jumpToPrevSegmentTarget (pre ++ F :: post) t = none := by
  obtain ⟨hbe, htimed, hpair⟩ := hwf
  have hRF : ∀ it ∈ post, ∀ ea bb, F.endTime = some ea → it.time = some bb → ea ≤ bb := by
    have h3 := (List.pairwise_append.mp hpair).2.1
    exact (List.pairwise_cons.mp h3).1
  have hpost_s : ∀ it ∈ post, agendaStrictHit t it = false := by
    intro it hit
    by_contra hc
    rw [Bool.not_eq_false] at hc
    obtain ⟨b, e, hb, he, hbt, hte⟩ := strictHit_spec hc
    have hle : eF ≤ b := hRF it hit eF b hFe hb
    have hbteq : b = t := by omega
    exact hpost it hit (hbteq ▸ hb)
  have hpre_s : ∀ it ∈ pre, agendaStrictHit t it = false :=
    fun it hit => strictHit_none (hpre it hit)
  have hpost_sf : post.findIdx? (agendaStrictHit t) = none :=
    List.findIdx?_eq_none_iff.mpr hpost_s
  have hpre_sf : pre.findIdx? (agendaStrictHit t) = none :=
    List.findIdx?_eq_none_iff.mpr hpre_s
  have hlen0 : ¬((pre ++ F :: post).length = 0) := by simp
  have hci : currentAgendaIdx (pre ++ F :: post) t = (pre.length : Int) := by
    by_cases hF : agendaStrictHit t F = true
    · have hfind : (pre ++ F :: post).findIdx? (agendaStrictHit t) = some pre.length := by
        rw [List.findIdx?_append, hpre_sf, Option.none_or, List.findIdx?_cons, if_pos hF]
        simp
      exact currentAgendaIdx_of_strict _ _ _ hfind
    · rw [Bool.not_eq_true] at hF
      have hsf : (pre ++ F :: post).findIdx? (agendaStrictHit t) = none := by
        rw [List.findIdx?_append, hpre_sf, Option.none_or, List.findIdx?_cons,
          if_neg (by simp [hF]), List.findIdx?_succ, hpost_sf]
        rfl
      have hF_loose : agendaLooseHit t F = true := by
        unfold agendaLooseHit
        rw [hFb, hFe]
        simp only [Bool.and_eq_true, decide_eq_true_eq]
        exact ⟨h1, h2⟩
      have hpre_lf : pre.findIdx? (agendaLooseHit t) = none :=
        List.findIdx?_eq_none_iff.mpr (fun it hit => looseHit_none (hpre it hit))
      have hlf : (pre ++ F :: post).findIdx? (agendaLooseHit t) = some pre.length := by
        rw [List.findIdx?_append, hpre_lf, Option.none_or, List.findIdx?_cons, if_pos hF_loose]
        simp
      exact currentAgendaIdx_of_loose _ _ _ hsf hlf
  have hgoal : jumpToPrevSegmentTarget (pre ++ F :: post) t =
      (if currentAgendaIdx (pre ++ F :: post) t > 0 then
        ((pre ++ F :: post).getD ((currentAgendaIdx (pre ++ F :: post) t) - 1).toNat
          dfltItem).time
      else none) := by
    unfold jumpToPrevSegmentTarget
    rw [if_neg hlen0]
  rw [hgoal, hci]
  by_cases hpz : pre.length = 0
  · rw [if_neg (by omega)]
  · rw [if_pos (by omega)]
    have htn : ((pre.length : Int) - 1).toNat = pre.length - 1 := by omega
    rw [htn, getD_append_left' (show pre.length - 1 < pre.length by omega)]
    exact hpre _ (getD_mem' (by omega))

theorem jumpToNextSegment_boundary_noop (pre post : List AgendaItem) (L : AgendaItem)
    (t bL eL : Int) (hwf : AgendaWF (pre ++ L :: post))
    (hpost : ∀ it ∈ post, it.time = none)
    (hLb : L.time = some bL) (hLe : L.endTime = some eL)
    (h1 : bL ≤ t) (h2 : t ≤ eL) :
    jumpToNextSegmentTarget (pre ++ L :: post) t = none ∨
      jumpToNextSegmentTarget (pre ++ L :: post) t = some t := by
  obtain ⟨hbe, htimed, hpair⟩ := hwf
  have hpairs := List.pairwise_append.mp hpair
  have hRpreL : ∀ a ∈ pre, ∀ ea bb, a.endTime = some ea → L.time = some bb → ea ≤ bb :=
    fun a ha ea bb hea hbb => hpairs.2.2 a ha L (List.mem_cons_self L post) ea bb hea hbb
  have hprePair := hpairs.1
  have hpre_s : ∀ it ∈ pre, agendaStrictHit t it = false := by
    intro it hit
    by_contra hc
    rw [Bool.not_eq_false] at hc
    obtain ⟨b, e, hb, he, hbt, hte⟩ := strictHit_spec hc
    have hle : e ≤ bL := hRpreL it hit e bL he hLb
    omega
  have hpre_sf : pre.findIdx? (agendaStrictHit t) = none :=
    List.findIdx?_eq_none_iff.mpr hpre_s
  have hpost_sf : post.findIdx? (agendaStrictHit t) = none :=
    List.findIdx?_eq_none_iff.mpr (fun it hit => strictHit_none (hpost it hit))
  have hlen0 : ¬((pre ++ L :: post).length = 0) := by simp
  have hlen : (pre ++ L :: post).length = pre.length + 1 + post.length := by
    rw [List.length_append, List.length_cons]
    omega
  have hgoal : jumpToNextSegmentTarget (pre ++ L :: post) t =
      (if currentAgendaIdx (pre ++ L :: post) t < ((pre ++ L :: post).length : Int) - 1 then
        ((pre ++ L :: post).getD ((currentAgendaIdx (pre ++ L :: post) t) + 1).toNat
          dfltItem).time
      else none) := by
    unfold jumpToNextSegmentTarget
    rw [if_neg hlen0]
  -- Conclusion whenever the current index resolves to L's own position.
  have hatP : currentAgendaIdx (pre ++ L :: post) t = (pre.length : Int) →
      jumpToNextSegmentTarget (pre ++ L :: post) t = none ∨
        jumpToNextSegmentTarget (pre ++ L :: post) t = some t := by
    intro hci
    rw [hgoal, hci]
    by_cases hpostc : post = []
    · left
      have hplen : post.length = 0 := by rw [hpostc]; rfl
      rw [if_neg (by omega)]
    · obtain ⟨q0, post', hpostc'⟩ := List.exists_cons_of_ne_nil hpostc
      left
      have hplen : post.length = post'.length + 1 := by rw [hpostc']; rfl
      rw [if_pos (by omega)]
      have htn : ((pre.length : Int) + 1).toNat = pre.length + 1 := by omega
      rw [htn]
      have hgd : (pre ++ L :: post).getD (pre.length + 1) dfltItem = q0 := by
        rw [hpostc', getD_append_right' pre (L :: q0 :: post') dfltItem
          (by omega) (by rw [List.length_append]; simp)]
        have hone : pre.length + 1 - pre.length = 1 := by omega
        rw [hone]
        rfl
      rw [hgd]
      exact hpost q0 (by rw [hpostc']; exact List.mem_cons_self q0 post')
  by_cases hF : agendaStrictHit t L = true
  · apply hatP
    have hfind : (pre ++ L :: post).findIdx? (agendaStrictHit t) = some pre.length := by
      rw [List.findIdx?_append, hpre_sf, Option.none_or, List.findIdx?_cons, if_pos hF]
      simp
    exact currentAgendaIdx_of_strict _ _ _ hfind
  · rw [Bool.not_eq_true] at hF
    have hsf : (pre ++ L :: post).findIdx? (agendaStrictHit t) = none := by
      rw [List.findIdx?_append, hpre_sf, Option.none_or, List.findIdx?_cons,
        if_neg (by simp [hF]), List.findIdx?_succ, hpost_sf]
      rfl
    have hL_loose : agendaLooseHit t L = true := by
      unfold agendaLooseHit
      rw [hLb, hLe]
      simp only [Bool.and_eq_true, decide_eq_true_eq]
      exact ⟨h1, h2⟩
    cases hq : pre.findIdx? (agendaLooseHit t) with
    | none =>
      apply hatP
      have hlf : (pre ++ L :: post).findIdx? (agendaLooseHit t) = some pre.length := by
        rw [List.findIdx?_append, hq, Option.none_or, List.findIdx?_cons, if_pos hL_loose]
        simp
      exact currentAgendaIdx_of_loose _ _ _ hsf hlf
    | some q =>
      have hlf : (pre ++ L :: post).findIdx? (agendaLooseHit t) = some q := by
        rw [List.findIdx?_append, hq]
        rfl
      have hci : currentAgendaIdx (pre ++ L :: post) t = (q : Int) :=
        currentAgendaIdx_of_loose _ _ _ hsf hlf
      obtain ⟨hq1, hq2, _⟩ := List.findIdx?_eq_some_iff_getElem.mp hq
      obtain ⟨b, e, hb, he, hbt, hte⟩ := looseHit_spec hq2
      have heL : e ≤ bL := hRpreL pre[q] (List.getElem_mem hq1) e bL he hLb
      have hbLt : bL = t := by omega
      have het : e = t := by omega
      rw [hgoal, hci]
      rw [if_pos (by omega)]
      have htn : ((q : Int) + 1).toNat = q + 1 := by omega
      rw [htn]
      by_cases hqp : q + 1 = pre.length
      · have hgd : (pre ++ L :: post).getD (q + 1) dfltItem = L := by
          rw [hqp]
          exact getD_append_middle' pre L post dfltItem
        rw [hgd, hLb, hbLt]
        exact Or.inr rfl
      · have hlt : q + 1 < pre.length := by omega
        rw [getD_append_left' hlt, List.getD_eq_getElem _ _ hlt]
        cases htime2 : pre[q + 1].time with
        | none => exact Or.inl rfl
        | some b2 =>
          right
          have hdated2 : pre[q + 1].endTime.isSome :=
            htimed pre[q + 1] (List.mem_append_left _ (List.getElem_mem hlt))
              (by rw [htime2]; rfl)
          obtain ⟨e2, he2⟩ := Option.isSome_iff_exists.mp hdated2
          have hR12 : e ≤ b2 :=
            List.pairwise_iff_getElem.mp hprePair q (q + 1) hq1 hlt (by omega) e b2 he htime2
          have hR2L : e2 ≤ bL :=
            hRpreL pre[q + 1] (List.getElem_mem hlt) e2 bL he2 hLb
          have hb2e2 : b2 ≤ e2 :=
            hbe pre[q + 1] (List.mem_append_left _ (List.getElem_mem hlt)) b2 e2 htime2 he2
          have hb2t : b2 = t := by omega
          rw [hb2t]

theorem scanPrevSame_spec (groups : List SpeakerGroup) (spk : Int) :
    ∀ i : Nat,
      (∀ j, scanPrevSame groups spk i = some j → j ≤ i ∧
        (groups.getD j dfltGroup).speakerId = spk ∧
        ∀ k, j < k → k ≤ i → (groups.getD k dfltGroup).speakerId ≠ spk) ∧
      (scanPrevSame groups spk i = none →
        ∀ k, k ≤ i → (groups.getD k dfltGroup).speakerId ≠ spk) := by
  intro i
  induction i with
  | zero =>
    constructor
    · intro j hj
      unfold scanPrevSame at hj
      by_cases h0 : (groups.getD 0 dfltGroup).speakerId = spk
      · rw [if_pos h0] at hj
        obtain rfl : (0 : Nat) = j := Option.some_inj.mp hj
        exact ⟨le_refl 0, h0, fun k hk1 hk2 => absurd (by omega : (0 : Nat) < 0) (by omega)⟩
      · rw [if_neg h0] at hj
        cases hj
    · intro hn k hk
      unfold scanPrevSame at hn
      by_cases h0 : (groups.getD 0 dfltGroup).speakerId = spk
      · rw [if_pos h0] at hn
        cases hn
      · rw [if_neg h0] at hn
        obtain rfl : k = 0 := by omega
        exact h0
  | succ i ih =>
    constructor
    · intro j hj
      unfold scanPrevSame at hj
      by_cases hs : (groups.getD (i + 1) dfltGroup).speakerId = spk
      · rw [if_pos hs] at hj
        obtain rfl : i + 1 = j := Option.some_inj.mp hj
        exact ⟨le_refl _, hs, fun k hk1 hk2 => absurd (by omega : i + 1 < i + 1) (by omega)⟩
      · rw [if_neg hs] at hj
        obtain ⟨hj1, hj2, hj3⟩ := ih.1 j hj
        refine ⟨by omega, hj2, ?_⟩
        intro k hk1 hk2
        by_cases hki : k = i + 1
        · rw [hki]
          exact hs
        · exact hj3 k hk1 (by omega)
    · intro hn k hk
      unfold scanPrevSame at hn
      by_cases hs : (groups.getD (i + 1) dfltGroup).speakerId = spk
      · rw [if_pos hs] at hn
        cases hn
      · rw [if_neg hs] at hn
        by_cases hki : k = i + 1
        · rw [hki]
          exact hs
        · exact ih.2 hn k (by omega)

theorem scanNextSame_spec (groups : List SpeakerGroup) (spk : Int) :
    ∀ (fuel i : Nat), groups.length - i ≤ fuel →
      (∀ j, scanNextSame groups spk i = some j → i ≤ j ∧ j < groups.length ∧
        (groups.getD j dfltGroup).speakerId = spk ∧
        ∀ k, i ≤ k → k < j → (groups.getD k dfltGroup).speakerId ≠ spk) ∧
      (scanNextSame groups spk i = none →
        ∀ k, i ≤ k → k < groups.length → (groups.getD k dfltGroup).speakerId ≠ spk) := by
  intro fuel
  induction fuel with
  | zero =>
    intro i hfuel
    have hi : ¬(i < groups.length) := by omega
    rw [scanNextSame, if_neg hi]
    constructor
    · intro j hj
      cases hj
    · intro _ k hk1 hk2
      omega
  | succ n ih =>
    intro i hfuel
    by_cases hi : i < groups.length
    · have hunf : scanNextSame groups spk i =
          (if (groups.getD i dfltGroup).speakerId = spk then some i
          else scanNextSame groups spk (i + 1)) := by
        rw [scanNextSame, if_pos hi]
      rw [hunf]
      by_cases hs : (groups.getD i dfltGroup).speakerId = spk
      · rw [if_pos hs]
        constructor
        · intro j hj
          obtain rfl : i = j := Option.some_inj.mp hj
          exact ⟨le_refl _, hi, hs, fun k hk1 hk2 => absurd (by omega : i < i) (by omega)⟩
        · intro hn
          cases hn
      · rw [if_neg hs]
        obtain ⟨ihs, ihn⟩ := ih (i + 1) (by omega)
        constructor
        · intro j hj
          obtain ⟨hj1, hj2, hj3, hj4⟩ := ihs j hj
          refine ⟨by omega, hj2, hj3, ?_⟩
          intro k hk1 hk2
          by_cases hki : k = i
          · rw [hki]
            exact hs
          · exact hj4 k (by omega) hk2
        · intro hn k hk1 hk2
          by_cases hki : k = i
          · rw [hki]
            exact hs
          · exact ihn hn k (by omega) hk2
    · rw [scanNextSame, if_neg hi]
      constructor
      · intro j hj
        cases hj
      · intro _ k hk1 hk2
        omega

theorem jsFindIndex_some {α : Type} {l : List α} {p : α → Bool} {k : Nat}
    (h : l.findIdx? p = some k) : jsFindIndex l p = (k : Int) := by
  unfold jsFindIndex
  rw [h]

theorem jsFindIndex_none {α : Type} {l : List α} {p : α → Bool}
    (h : l.findIdx? p = none) : jsFindIndex l p = -1 := by
  unfold jsFindIndex
  rw [h]

theorem resolveGroupIdx_lt (groups : List SpeakerGroup) (t : Int) :
    resolveGroupIdx groups t < (groups.length : Int) := by
  unfold resolveGroupIdx
  cases h1 : groups.findIdx? (fun g => decide (g.startTime ≤ t) && decide (t ≤ g.endTime)) with
  | some k =>
    obtain ⟨hk, _, _⟩ := List.findIdx?_eq_some_iff_getElem.mp h1
    rw [jsFindIndex_some h1, if_neg (show ¬((k : Int) = -1) by omega)]
    omega
  | none =>
    rw [jsFindIndex_none h1, if_pos rfl]
    cases h2 : groups.findIdx? (fun g => decide (g.startTime > t)) with
    | some m =>
      obtain ⟨hm, _, _⟩ := List.findIdx?_eq_some_iff_getElem.mp h2
      rw [jsFindIndex_some h2]
      omega
    | none =>
      rw [jsFindIndex_none h2]
      omega

theorem jumpToPrevSentenceTarget_eq (groups : List SpeakerGroup) (t : Int)
    (hlen : ¬(groups.length = 0)) :
    jumpToPrevSentenceTarget groups t =
      (if resolveGroupIdx groups t ≤ 0 then none
      else match scanPrevSame groups
          (groups.getD (resolveGroupIdx groups t).toNat dfltGroup).speakerId
          ((resolveGroupIdx groups t).toNat - 1) with
        | some j => some (groups.getD j dfltGroup).startTime
        | none => none) := by
  unfold jumpToPrevSentenceTarget
  rw [if_neg hlen]

theorem jumpToNextSentenceTarget_eq (groups : List SpeakerGroup) (t : Int)
    (hlen : ¬(groups.length = 0)) :
    jumpToNextSentenceTarget groups t =
      (if resolveGroupIdx groups t < 0 ∨ resolveGroupIdx groups t ≥ (groups.length : Int) - 1
        then none
      else match scanNextSame groups
          (groups.getD (resolveGroupIdx groups t).toNat dfltGroup).speakerId
          ((resolveGroupIdx groups t).toNat + 1) with
        | some j => some (groups.getD j dfltGroup).startTime
        | none => none) := by
  unfold jumpToNextSentenceTarget
  rw [if_neg hlen]
  by_cases h : resolveGroupIdx groups t < 0 ∨ resolveGroupIdx groups t ≥ (groups.length : Int) - 1
  · rw [if_pos h, if_pos (by rcases h with h | h <;> simp [h])]
  · rw [if_neg h, if_neg (by simp only [Bool.or_eq_true, decide_eq_true_eq]; exact h)]

/-! ## Claims -/

/-- C4: the playback clock sampler changes the sampled value on a raw
update iff no selection is in progress, the menu is not visible, and the
raw value differs from the last sampled value by at least 180 ms; while
suspended the sampled value never changes; the trace 0, 50, 100, 170,
200 ms from sampled value 0 triggers exactly one update, ending at 200. -/
theorem C4_sampler_throttle :
    (∀ (selecting menuVisible : Bool) (raw sampled : Int),
      samplerStep selecting menuVisible raw sampled ≠ sampled ↔
        (selecting = false ∧ menuVisible = false ∧ 180 ≤ |raw - sampled|)) ∧
    (∀ (m : Bool) (raw sampled : Int),
      samplerStep true m raw sampled = sampled ∧ samplerStep m true raw sampled = sampled) ∧
    samplerRun [0, 50, 100, 170, 200] 0 = (200, 1) := by
  refine ⟨?_, ?_, sampler_trace⟩
  · intro selecting menuVisible raw sampled
    cases selecting with
    | true => simp [samplerStep]
    | false =>
      cases menuVisible with
      | true => simp [samplerStep]
      | false =>
        have hstep : samplerStep false false raw sampled =
            if |raw - sampled| < 180 then sampled else raw := by
          simp [samplerStep]
        rw [hstep]
        by_cases h : |raw - sampled| < 180
        · rw [if_pos h]
          simp only [ne_eq, not_true_eq_false, false_iff, not_and]
          intro _ _
          exact not_le.mpr h
        · rw [if_neg h]
          rw [not_lt] at h
          refine iff_of_true ?_ ⟨rfl, rfl, h⟩
          intro he
          rw [he, sub_self, abs_zero] at h
          omega
  · intro m raw sampled
    constructor <;> unfold samplerStep <;> cases m <;> simp

/-- C5 counterexample: marking a group `important` then clearing with
`null` does **not** leave the group absent from `groupMarks`: the spread
`{ ...prev, [group.id]: null }` stores the key with a `null` value, so
the mapping differs from the never-marked (empty) one. -/
theorem C5_counterexample :
    setGroupMark (setGroupMark [] "group-1" (some MarkKind.important)) "group-1" none =
        [("group-1", (none : MarkType))] ∧
      setGroupMark (setGroupMark [] "group-1" (some MarkKind.important)) "group-1" none ≠ [] ∧
      (setGroupMark (setGroupMark [] "group-1" (some MarkKind.important)) "group-1"
            none).map Prod.fst = ["group-1"] := by
  refine ⟨by decide, by decide, by decide⟩

/-- C5 (amended): marking a group `important` then `none` leaves the
group *rendered* as unmarked in the transcript panel (the lookup
`groupMarks[group.id] ?? null` yields `null`, as if never marked),
though the key itself remains in the record with a `null` value; in the
video player's progress-bar mark list (`handleTranscriptMarkChange`),
clearing truly removes the entry, and a group not previously present is
left exactly as if it had never been marked. -/
theorem C5_mark_then_clear (m : List (String × MarkType)) (g : String) (k : MarkKind)
    (tms : List TranscriptMark) (timeMs : Int) (txt pv : String)
    (hg : ∀ tm ∈ tms, tm.groupId ≠ g) :
    renderedMark (setGroupMark (setGroupMark m g (some k)) g none) g = none ∧
      handleTranscriptMarkChange (handleTranscriptMarkChange tms g (some k) timeMs txt)
          g none timeMs pv = tms := by
  constructor
  · exact renderedMark_setGroupMark _ g none
  · unfold handleTranscriptMarkChange
    have hany : (tms.any fun tm => tm.groupId = g) = false := by
      simp only [List.any_eq_false, decide_eq_true_eq]
      exact hg
    simp only [hany, Bool.false_eq_true, if_false]
    rw [List.filter_append, List.filter_eq_self.mpr (fun a ha => by simpa using hg a ha)]
    simp

theorem C5_mark_then_clear_witness :
    renderedMark
        (setGroupMark (setGroupMark [("x", some MarkKind.todo)] "group-1"
          (some MarkKind.important)) "group-1" none) "group-1" = none ∧
      handleTranscriptMarkChange
          (handleTranscriptMarkChange [] "group-1" (some MarkKind.important) 0 "t")
          "group-1" none 0 "p" = [] :=
  C5_mark_then_clear [("x", some MarkKind.todo)] "group-1" MarkKind.important [] 0 "t" "p"
    (by intro tm h; cases h)

/-- C9: `dispatchMark` is the only producer of selection marks, and every
mark it adds satisfies `endTimeMs = startTimeMs + 5000` and
`id = "sel-" ++ round (startTimeMs)`; hence every mark ever present in
`textMarks` (starting from the empty list) has this shape, and two
selections with the same rounded start time receive the same id. -/
theorem C9_selection_mark_shape (menu : SelectionMenuState) (ty : MarkType)
    (marks : List TextMark) (h : ∀ m ∈ marks, GoodTextMark m) :
    (∀ m ∈ dispatchMark menu ty marks, GoodTextMark m) ∧
      (∀ menu' : SelectionMenuState,
        jsRound menu.startTimeMs = jsRound menu'.startTimeMs →
          selMarkId menu = selMarkId menu') := by
  constructor
  · intro m hm
    unfold dispatchMark at hm
    cases ty with
    | none =>
      cases hmenu : menu.anchorGroupId <;> rw [hmenu] at hm <;> exact h m hm
    | some k =>
      cases hmenu : menu.anchorGroupId with
      | none => rw [hmenu] at hm; exact h m hm
      | some gid =>
        rw [hmenu] at hm
        rcases List.mem_append.mp hm with hm | hm
        · exact h m hm
        · rcases List.mem_singleton.mp hm with rfl
          exact ⟨rfl, rfl⟩
  · intro menu' hr
    unfold selMarkId
    rw [hr]

theorem C9_selection_mark_shape_witness :
    (∀ m ∈ dispatchMark ⟨100, "hello", some "group-1"⟩ (some MarkKind.important) [],
      GoodTextMark m) ∧
      (∀ menu' : SelectionMenuState,
        jsRound (100 : ℚ) = jsRound menu'.startTimeMs →
          selMarkId ⟨100, "hello", some "group-1"⟩ = selMarkId menu') :=
  C9_selection_mark_shape ⟨100, "hello", some "group-1"⟩ (some MarkKind.important) []
    (by intro m h; cases h)

/-- C10: `parseTime` inverts `formatTime` on every non-negative integer
number of seconds: `formatTime` renders zero-padded `MM:SS` below one
hour and `H…H:MM:SS` from one hour on (`formatTime 0 = "00:00"`), and
`parseTime` weights the colon-separated components by 3600/60/1. -/
theorem C10_parse_format_roundtrip : ∀ n : Nat, parseTime (formatTime n) = n := by
  intro n
  by_cases h0 : n = 0
  · subst h0
    decide
  · unfold formatTime
    rw [if_neg h0]
    by_cases hh : n / 3600 > 0
    · rw [if_pos hh]
      have hsplit :
          splitColon (padStart2 (natToChars (n / 3600)) ++ ':' ::
              (padStart2 (natToChars (n % 3600 / 60)) ++ ':' ::
                padStart2 (natToChars (n % 60)))) =
            [padStart2 (natToChars (n / 3600)),
             padStart2 (natToChars (n % 3600 / 60)),
             padStart2 (natToChars (n % 60))] := by
        rw [splitColon_append _ _ (padStart2_no_colon _),
          splitColon_append _ _ (padStart2_no_colon _),
          splitColon_no_colon _ (padStart2_no_colon _)]
      unfold parseTime
      rw [hsplit]
      show jsNumberOfDigits (padStart2 (natToChars (n / 3600))) * 3600 +
          jsNumberOfDigits (padStart2 (natToChars (n % 3600 / 60))) * 60 +
          jsNumberOfDigits (padStart2 (natToChars (n % 60))) = n
      rw [jsNumber_padStart2, jsNumber_padStart2, jsNumber_padStart2]
      omega
    · rw [if_neg hh]
      have hsplit :
          splitColon (padStart2 (natToChars (n % 3600 / 60)) ++ ':' ::
              padStart2 (natToChars (n % 60))) =
            [padStart2 (natToChars (n % 3600 / 60)),
             padStart2 (natToChars (n % 60))] := by
        rw [splitColon_append _ _ (padStart2_no_colon _),
          splitColon_no_colon _ (padStart2_no_colon _)]
      unfold parseTime
      rw [hsplit]
      show jsNumberOfDigits (padStart2 (natToChars (n % 3600 / 60))) * 60 +
          jsNumberOfDigits (padStart2 (natToChars (n % 60))) = n
      rw [jsNumber_padStart2, jsNumber_padStart2]
      omega

/-- C3: grouping yields the empty list on empty input and `k + 1` groups
otherwise where `k` counts adjacent speaker changes; the groups
partition the input into maximal same-speaker runs (adjacent groups have
different speakers) with `startTime` the first sentence's `bt`,
`endTime` the last sentence's `et`, and `text` the in-order
concatenation of the run's texts; on the three-sentence example it
yields speaker 1 covering 0–2000 ms with text "ab" and speaker 2
covering 2000–3000 ms with text "c". -/
theorem C3_grouping :
    speakerGroups [] = [] ∧
    (∀ (s : Sentence) (rest : List Sentence),
      (speakerGroups (s :: rest)).length = speakerChanges (s :: rest) + 1) ∧
    (∀ ss : List Sentence, ((speakerGroups ss).map (fun g => g.sentences)).flatten = ss) ∧
    (∀ ss : List Sentence, ∀ g ∈ speakerGroups ss, GroupWF g) ∧
    (∀ ss : List Sentence,
      ((speakerGroups ss).map (fun g => g.speakerId)).Chain' (· ≠ ·)) ∧
    speakerGroups [⟨1, 0, 1000, 1, "a"⟩, ⟨2, 1000, 2000, 1, "b"⟩, ⟨3, 2000, 3000, 2, "c"⟩] =
      [⟨groupIdOf 1, 1, 0, 2000, [⟨1, 0, 1000, 1, "a"⟩, ⟨2, 1000, 2000, 1, "b"⟩], "ab"⟩,
       ⟨groupIdOf 3, 2, 2000, 3000, [⟨3, 2000, 3000, 2, "c"⟩], "c"⟩] := by
  refine ⟨rfl, ?_, ?_, ?_, ?_, ?_⟩
  · intro s rest
    rw [show speakerGroups (s :: rest) = sgLoop (newGroup s) rest from rfl,
      (sgLoop_spec rest (newGroup s) (newGroup_wf s)).2.2.2.1, speakerChanges_eq]
    rfl
  · intro ss
    cases ss with
    | nil => rfl
    | cons s rest =>
      rw [show speakerGroups (s :: rest) = sgLoop (newGroup s) rest from rfl,
        (sgLoop_spec rest (newGroup s) (newGroup_wf s)).2.1]
      rfl
  · intro ss g hg
    cases ss with
    | nil => cases hg
    | cons s rest => exact (sgLoop_spec rest (newGroup s) (newGroup_wf s)).1 g hg
  · intro ss
    cases ss with
    | nil => simp [speakerGroups]
    | cons s rest => exact (sgLoop_spec rest (newGroup s) (newGroup_wf s)).2.2.1
  · rfl

/-- C8: `computeSelectionStartTimeMs` maps a character offset `p` into
the group's concatenated text to
`s.bt + ((p − c) / len s.tc) * (s.et − s.bt)` where `s` is the first
sentence whose cumulative character range reaches `p` and `c` the total
length of the preceding texts (a zero-length text yields ratio 0); when
`p` exceeds the total concatenated length the group's `startTime` is
returned; for a located sentence with `bt ≤ et` the result lies within
`[s.bt, s.et]`. -/
theorem C8_selection_start_time (g : SpeakerGroup) (p : Nat) :
    (totalTcLength g.sentences < p →
      computeSelectionStartTimeMs g p = (g.startTime : ℚ)) ∧
    (∀ s cc, locateSel p g.sentences 0 = some (s, cc) →
      computeSelectionStartTimeMs g p =
        (s.bt : ℚ) +
          (if s.tc.length > 0 then (((p - cc : Nat) : ℚ) / (s.tc.length : ℚ)) else 0) *
            ((s.et : ℚ) - (s.bt : ℚ)) ∧
      (s.bt ≤ s.et →
        (s.bt : ℚ) ≤ computeSelectionStartTimeMs g p ∧
          computeSelectionStartTimeMs g p ≤ (s.et : ℚ))) := by
  constructor
  · intro hgt
    exact selTimeLoop_none p g.startTime g.sentences 0
      (locateSel_none_of_gt p g.sentences 0 (by omega))
  · intro s cc hloc
    have heq : computeSelectionStartTimeMs g p =
        (s.bt : ℚ) +
          (if s.tc.length > 0 then (((p - cc : Nat) : ℚ) / (s.tc.length : ℚ)) else 0) *
            ((s.et : ℚ) - (s.bt : ℚ)) :=
      selTimeLoop_some p g.startTime g.sentences 0 s cc hloc
    refine ⟨heq, ?_⟩
    intro hbe
    set ratio : ℚ :=
      (if s.tc.length > 0 then (((p - cc : Nat) : ℚ) / (s.tc.length : ℚ)) else 0) with hr
    have hratio0 : (0 : ℚ) ≤ ratio := by
      rw [hr]
      split
      · positivity
      · exact le_refl 0
    have hratio1 : ratio ≤ 1 := by
      rw [hr]
      split
      · rename_i hlen
        rw [div_le_one (by exact_mod_cast hlen)]
        have hb := locateSel_some_spec p g.sentences 0 s cc hloc
        exact_mod_cast (by omega : (p - cc : Nat) ≤ s.tc.length)
      · norm_num
    have hdnn : (0 : ℚ) ≤ (s.et : ℚ) - (s.bt : ℚ) := by
      have hc : (s.bt : ℚ) ≤ (s.et : ℚ) := by exact_mod_cast hbe
      linarith
    constructor
    · rw [heq]
      have := mul_nonneg hratio0 hdnn
      linarith
    · rw [heq]
      have := mul_le_mul_of_nonneg_right hratio1 hdnn
      linarith

/-- C1: on a sentence list sorted ascending by `bt`, the
`currentSentence` binary search agrees for every query time with the
reference linear-scan definition: the last sentence whose
`beginMs ≤ timeMs`, kept only if `timeMs ≤ endMs`, and `none`
otherwise. -/
theorem C1_binary_search_agrees (arr : List Sentence) (t : Int)
    (hsort : List.Pairwise (fun a b => a.bt ≤ b.bt) arr) :
    findActiveSentence arr t = refActiveSentence arr t := by
  by_cases hlen : arr.length = 0
  · rw [List.length_eq_zero.mp hlen]
    rfl
  · unfold findActiveSentence
    rw [if_neg hlen]
    have main := bsGo_correct arr t hsort arr.length 0 (arr.length - 1) none
      (by omega) (by omega) (fun _ => rfl) (fun c hc => by cases hc)
      (fun j hj hjl => absurd hjl (by omega))
    cases hres : bsGo arr t 0 (arr.length - 1) none with
    | none =>
      have hall := main.1 hres
      unfold refActiveSentence
      have hfil : arr.filter (fun s => s.bt ≤ t) = [] := by
        rw [List.filter_eq_nil_iff]
        intro x hx
        rcases List.mem_iff_getElem.mp hx with ⟨i, hi, rfl⟩
        have hlt := hall i hi
        rw [List.getD_eq_getElem arr dfltSentence hi] at hlt
        simp only [decide_eq_true_eq]
        omega
      rw [hfil]
      rfl
    | some k =>
      obtain ⟨hk, hbt, habove⟩ := main.2 k hres
      have hboundary : ∀ j, j < arr.length → ((arr.getD j dfltSentence).bt ≤ t ↔ j ≤ k) := by
        intro j hj
        constructor
        · intro hle
          by_contra hgt
          have hlt := habove j (by omega) hj
          omega
        · intro hjk
          exact le_trans (sorted_getD_mono arr hsort hjk hk) hbt
      unfold refActiveSentence
      rw [getLast?_filter_boundary t arr k hk hboundary]

theorem C1_binary_search_agrees_witness :
    findActiveSentence
        [⟨1, 0, 1000, 1, "a"⟩, ⟨2, 1000, 2000, 1, "b"⟩, ⟨3, 2500, 3000, 2, "c"⟩] 2200 =
      refActiveSentence
        [⟨1, 0, 1000, 1, "a"⟩, ⟨2, 1000, 2000, 1, "b"⟩, ⟨3, 2500, 3000, 2, "c"⟩] 2200 :=
  C1_binary_search_agrees _ 2200 (by decide)

/-- C2: for a well-formed transcript (non-degenerate, non-overlapping
sentences with distinct ids) and any query time, `currentGroup` is
either `none` or a speaker group whose `[startTime, endTime]` contains
the query time. -/
theorem C2_active_group_in_range (ss : List Sentence) (t : Int)
    (hwf : WellFormedTranscript ss) :
    findActiveGroup ss t = none ∨
      ∃ g, findActiveGroup ss t = some g ∧ g.startTime ≤ t ∧ t ≤ g.endTime := by
  obtain ⟨hbe, hch, hnd⟩ := hwf
  cases hres : findActiveGroup ss t with
  | none => exact Or.inl rfl
  | some g =>
    right
    refine ⟨g, rfl, ?_⟩
    unfold findActiveGroup at hres
    cases hsen : findActiveSentence ss t with
    | none =>
      rw [hsen] at hres
      cases hres
    | some s =>
      rw [hsen] at hres
      obtain ⟨hmem, hsbt, hset⟩ := findActiveSentence_some ss t s hsen
      obtain ⟨s0, rest, rfl⟩ : ∃ s0 rest, ss = s0 :: rest := by
        cases ss with
        | nil => cases hmem
        | cons a b => exact ⟨a, b, rfl⟩
      have hspec := sgLoop_spec rest (newGroup s0) (newGroup_wf s0)
      have hwfall : ∀ g' ∈ speakerGroups (s0 :: rest), GroupWF g' := hspec.1
      have hjoin : ((speakerGroups (s0 :: rest)).map (fun g => g.sentences)).flatten =
          s0 :: rest := hspec.2.1
      have hsmem : s ∈ ((speakerGroups (s0 :: rest)).map (fun g => g.sentences)).flatten := by
        rw [hjoin]
        exact hmem
      rcases List.mem_flatten.mp hsmem with ⟨l, hl, hsl⟩
      rcases List.mem_map.mp hl with ⟨g0, hg0, rfl⟩
      have hpairs_nodup :
          (((speakerGroups (s0 :: rest)).map
              (fun g => g.sentences.map (fun s => (s.id, g.id)))).flatten).map Prod.fst
            |>.Nodup := by
        rw [allPairs_fst, hjoin]
        exact hnd
      have hpair_mem : (s.id, g0.id) ∈
          ((speakerGroups (s0 :: rest)).map
            (fun g => g.sentences.map (fun s => (s.id, g.id)))).flatten := by
        rw [List.mem_flatten]
        exact ⟨g0.sentences.map (fun s' => (s'.id, g0.id)),
          List.mem_map.mpr ⟨g0, hg0, rfl⟩, List.mem_map.mpr ⟨s, hsl, rfl⟩⟩
      have hres' : (match mapGet (sentenceIdToGroupId (speakerGroups (s0 :: rest))) s.id with
          | none => none
          | some gid =>
            (speakerGroups (s0 :: rest)).find? (fun g' => g'.id = gid)) = some g := hres
      have hget : mapGet (sentenceIdToGroupId (speakerGroups (s0 :: rest))) s.id =
          some g0.id := by
        rw [sentenceIdToGroupId_eq_foldl]
        exact mapGet_foldl_pairs_found _ [] s.id g0.id hpair_mem hpairs_nodup
      rw [hget] at hres'
      have hres2 : (speakerGroups (s0 :: rest)).find? (fun g' => g'.id = g0.id) = some g :=
        hres'
      have hgidnd : ((speakerGroups (s0 :: rest)).map (fun g => g.id)).Nodup :=
        groups_ids_nodup _ hwfall (by rw [hjoin]; exact hnd)
      have hfind : (speakerGroups (s0 :: rest)).find? (fun g' => g'.id = g0.id) = some g0 :=
        find?_of_nodup_ids _ g0 hgidnd hg0
      rw [hfind] at hres2
      obtain rfl : g0 = g := Option.some_inj.mp hres2
      obtain ⟨h, tl, hsen0, _, _, hst, hen, _, _⟩ := hwfall g0 hg0
      have hinf : g0.sentences <:+: s0 :: rest := by
        rw [← hjoin]
        exact infix_of_mem_lists (List.mem_map.mpr ⟨g0, hg0, rfl⟩)
      have hch0 : List.Chain' (fun a b => a.et ≤ b.bt) g0.sentences := hch.infix hinf
      have hbe0 : ∀ x ∈ g0.sentences, x.bt ≤ x.et := fun x hx => hbe x (hinf.subset hx)
      have hhead : h.bt ≤ s.bt := by
        rw [hsen0] at hch0 hbe0 hsl
        exact chain_head_bt h tl hch0 hbe0 s hsl
      have hne : g0.sentences ≠ [] := by
        rw [hsen0]
        simp
      obtain ⟨x, hx⟩ : ∃ x, g0.sentences.getLast? = some x :=
        Option.isSome_iff_exists.mp (List.getLast?_isSome.mpr hne)
      have hlast : s.et ≤ x.et := chain_last_et g0.sentences x hch0 hbe0 hx s hsl
      have hend : g0.endTime = x.et := by
        rw [hen, List.getLastD_eq_getLast?, hx]
        rfl
      constructor
      · rw [hst]
        omega
      · rw [hend]
        omega

theorem C2_active_group_in_range_witness :
    findActiveGroup [⟨1, 0, 1000, 1, "a"⟩, ⟨2, 1200, 2000, 2, "b"⟩] 1500 = none ∨
      ∃ g, findActiveGroup [⟨1, 0, 1000, 1, "a"⟩, ⟨2, 1200, 2000, 2, "b"⟩] 1500 = some g ∧
        g.startTime ≤ 1500 ∧ 1500 ≤ g.endTime :=
  C2_active_group_in_range [⟨1, 0, 1000, 1, "a"⟩, ⟨2, 1200, 2000, 2, "b"⟩] 1500
    ⟨by decide, List.chain'_pair.mpr (by decide), by decide⟩

/-- C6 counterexample: with the agenda `[{time 0, endTime 1000},
{time 1000, endTime 5000}]` and current time 1000 — which lies inside
the *first* dated item `[0, 1000]` — `jumpToPrevSegment` is not a no-op:
the 100 ms epsilon test attributes the time to the second chapter and
seeks to the previous chapter's start 0, changing the playback time from
1000 to 0. -/
theorem C6_counterexample :
    jumpToPrevSegmentTarget [⟨some 0, some 1000⟩, ⟨some 1000, some 5000⟩] 1000 = some 0 ∧
      (0 : Int) ≤ 1000 ∧ (1000 : Int) ≤ 1000 ∧ (0 : Int) ≠ 1000 :=
  ⟨by decide, by decide, by decide, by decide⟩

/-- C6 (amended): for a well-formed agenda, when the current time lies
inside the first dated item and — if it equals that item's `endTime` —
is not also the start of a later dated item (items after the first dated
one here carry times different from the current time; items before it
are undated), `jumpToPrevSegment` performs no state change; when the
current time lies inside the last dated item (followed only by items
with no start time), `jumpToNextSegment` either performs no seek or
seeks to the current time itself, leaving the playback time unchanged. -/
theorem C6_agenda_boundary_navigation :
    (∀ (pre post : List AgendaItem) (F : AgendaItem) (t bF eF : Int),
      AgendaWF (pre ++ F :: post) → (∀ it ∈ pre, it.time = none) →
      F.time = some bF → F.endTime = some eF → bF ≤ t → t ≤ eF →
      (∀ it ∈ post, it.time ≠ some t) →
      jumpToPrevSegmentTarget (pre ++ F :: post) t = none) ∧
    (∀ (pre post : List AgendaItem) (L : AgendaItem) (t bL eL : Int),
      AgendaWF (pre ++ L :: post) → (∀ it ∈ post, it.time = none) →
      L.time = some bL → L.endTime = some eL → bL ≤ t → t ≤ eL →
      jumpToNextSegmentTarget (pre ++ L :: post) t = none ∨
        jumpToNextSegmentTarget (pre ++ L :: post) t = some t) :=
  ⟨jumpToPrevSegment_boundary_noop, jumpToNextSegment_boundary_noop⟩

theorem C6_agenda_boundary_navigation_witness :
    jumpToPrevSegmentTarget ([] ++ (⟨some 0, some 1000⟩ : AgendaItem) :: []) 500 = none ∧
      (jumpToNextSegmentTarget ([] ++ (⟨some 0, some 1000⟩ : AgendaItem) :: []) 500 = none ∨
        jumpToNextSegmentTarget ([] ++ (⟨some 0, some 1000⟩ : AgendaItem) :: []) 500 =
          some 500) := by
  have hwf : AgendaWF ([] ++ (⟨some 0, some 1000⟩ : AgendaItem) :: []) := by
    refine ⟨?_, ?_, ?_⟩
    · intro it hit b e h1 h2
      rcases List.mem_singleton.mp hit with rfl
      cases h1
      cases h2
      decide
    · intro it hit _
      rcases List.mem_singleton.mp hit with rfl
      rfl
    · simp
  constructor
  · exact C6_agenda_boundary_navigation.1 [] [] ⟨some 0, some 1000⟩ 500 0 1000 hwf
      (fun it hit => absurd hit (List.not_mem_nil it)) rfl rfl (by decide) (by decide)
      (fun it hit => absurd hit (List.not_mem_nil it))
  · exact C6_agenda_boundary_navigation.2 [] [] ⟨some 0, some 1000⟩ 500 0 1000 hwf
      (fun it hit => absurd hit (List.not_mem_nil it)) rfl rfl (by decide) (by decide)

/-- C7: previous/next-utterance navigation seeks only to the start of
the nearest group strictly before (resp. after) the resolved current
group with the same `speakerId` — the current index being resolved by
`resolveGroupIdx`, which falls back from a gap to the index of the group
following the gap minus one — and is a no-op when no same-speaker group
exists in the requested direction, in particular on a single-group
transcript. -/
theorem C7_same_speaker_navigation :
    (∀ (groups : List SpeakerGroup) (t x : Int),
      jumpToPrevSentenceTarget groups t = some x →
      ∃ i j : Nat, resolveGroupIdx groups t = (i : Int) ∧ 0 < i ∧ i < groups.length ∧
        j < i ∧ (groups.getD j dfltGroup).speakerId = (groups.getD i dfltGroup).speakerId ∧
        (∀ k, j < k → k < i →
          (groups.getD k dfltGroup).speakerId ≠ (groups.getD i dfltGroup).speakerId) ∧
        x = (groups.getD j dfltGroup).startTime) ∧
    (∀ (groups : List SpeakerGroup) (t x : Int),
      jumpToNextSentenceTarget groups t = some x →
      ∃ i j : Nat, resolveGroupIdx groups t = (i : Int) ∧ i + 1 < groups.length ∧
        i < j ∧ j < groups.length ∧
        (groups.getD j dfltGroup).speakerId = (groups.getD i dfltGroup).speakerId ∧
        (∀ k, i < k → k < j →
          (groups.getD k dfltGroup).speakerId ≠ (groups.getD i dfltGroup).speakerId) ∧
        x = (groups.getD j dfltGroup).startTime) ∧
    (∀ (groups : List SpeakerGroup) (t : Int) (i : Nat),
      resolveGroupIdx groups t = (i : Int) → 0 < i →
      (∀ j, j < i →
        (groups.getD j dfltGroup).speakerId ≠ (groups.getD i dfltGroup).speakerId) →
      jumpToPrevSentenceTarget groups t = none) ∧
    (∀ (groups : List SpeakerGroup) (t : Int) (i : Nat),
      resolveGroupIdx groups t = (i : Int) →
      (∀ j, i < j → j < groups.length →
        (groups.getD j dfltGroup).speakerId ≠ (groups.getD i dfltGroup).speakerId) →
      jumpToNextSentenceTarget groups t = none) ∧
    (∀ (g : SpeakerGroup) (t : Int),
      jumpToPrevSentenceTarget [g] t = none ∧ jumpToNextSentenceTarget [g] t = none) := by
  refine ⟨?_, ?_, ?_, ?_, ?_⟩
  · intro groups t x hx
    by_cases hlen : groups.length = 0
    · unfold jumpToPrevSentenceTarget at hx
      rw [if_pos hlen] at hx
      cases hx
    · rw [jumpToPrevSentenceTarget_eq groups t hlen] at hx
      by_cases hci : resolveGroupIdx groups t ≤ 0
      · rw [if_pos hci] at hx
        cases hx
      · rw [if_neg hci] at hx
        set i := (resolveGroupIdx groups t).toNat with hi
        have hres : resolveGroupIdx groups t = (i : Int) := by omega
        have hilt : i < groups.length := by
          have := resolveGroupIdx_lt groups t
          omega
        cases hscan : scanPrevSame groups (groups.getD i dfltGroup).speakerId (i - 1) with
        | none =>
          rw [hscan] at hx
          cases hx
        | some j =>
          rw [hscan] at hx
          obtain ⟨hj1, hj2, hj3⟩ :=
            (scanPrevSame_spec groups (groups.getD i dfltGroup).speakerId (i - 1)).1 j hscan
          refine ⟨i, j, hres, by omega, hilt, by omega, hj2, ?_,
            (Option.some_inj.mp hx).symm⟩
          intro k hk1 hk2
          exact hj3 k hk1 (by omega)
  · intro groups t x hx
    by_cases hlen : groups.length = 0
    · unfold jumpToNextSentenceTarget at hx
      rw [if_pos hlen] at hx
      cases hx
    · rw [jumpToNextSentenceTarget_eq groups t hlen] at hx
      by_cases hcond : resolveGroupIdx groups t < 0 ∨
          resolveGroupIdx groups t ≥ (groups.length : Int) - 1
      · rw [if_pos hcond] at hx
        cases hx
      · rw [if_neg hcond] at hx
        push_neg at hcond
        set i := (resolveGroupIdx groups t).toNat with hi
        have hres : resolveGroupIdx groups t = (i : Int) := by omega
        have hilt : i + 1 < groups.length := by omega
        cases hscan : scanNextSame groups (groups.getD i dfltGroup).speakerId (i + 1) with
        | none =>
          rw [hscan] at hx
          cases hx
        | some j =>
          rw [hscan] at hx
          obtain ⟨hj1, hj2, hj3, hj4⟩ :=
            (scanNextSame_spec groups (groups.getD i dfltGroup).speakerId groups.length
              (i + 1) (by omega)).1 j hscan
          refine ⟨i, j, hres, hilt, by omega, hj2, hj3, ?_, (Option.some_inj.mp hx).symm⟩
          intro k hk1 hk2
          exact hj4 k (by omega) hk2
  · intro groups t i hres hpos hall
    have hlen0 : ¬(groups.length = 0) := by
      have := resolveGroupIdx_lt groups t
      omega
    rw [jumpToPrevSentenceTarget_eq groups t hlen0, hres, Int.toNat_natCast]
    rw [if_neg (show ¬((i : Int) ≤ 0) by omega)]
    cases hscan : scanPrevSame groups (groups.getD i dfltGroup).speakerId (i - 1) with
    | none => rfl
    | some j =>
      obtain ⟨hj1, hj2, _⟩ :=
        (scanPrevSame_spec groups (groups.getD i dfltGroup).speakerId (i - 1)).1 j hscan
      exact absurd hj2 (hall j (by omega))
  · intro groups t i hres hall
    by_cases hlen : groups.length = 0
    · unfold jumpToNextSentenceTarget
      rw [if_pos hlen]
    · rw [jumpToNextSentenceTarget_eq groups t hlen, hres, Int.toNat_natCast]
      by_cases hcond : ((i : Int)) < 0 ∨ ((i : Int)) ≥ (groups.length : Int) - 1
      · rw [if_pos hcond]
      · rw [if_neg hcond]
        push_neg at hcond
        cases hscan : scanNextSame groups (groups.getD i dfltGroup).speakerId (i + 1) with
        | none => rfl
        | some j =>
          obtain ⟨hj1, hj2, hj3, _⟩ :=
            (scanNextSame_spec groups (groups.getD i dfltGroup).speakerId groups.length
              (i + 1) (by omega)).1 j hscan
          exact absurd hj3 (hall j (by omega) hj2)
  · intro g t
    have hlen1 : ([g] : List SpeakerGroup).length = 1 := rfl
    have hr : resolveGroupIdx [g] t ≤ 0 := by
      unfold resolveGroupIdx
      cases h1 : [g].findIdx? (fun x => decide (x.startTime ≤ t) && decide (t ≤ x.endTime)) with
      | some k =>
        obtain ⟨hk, _, _⟩ := List.findIdx?_eq_some_iff_getElem.mp h1
        rw [hlen1] at hk
        rw [jsFindIndex_some h1, if_neg (by omega)]
        omega
      | none =>
        rw [jsFindIndex_none h1, if_pos rfl]
        cases h2 : [g].findIdx? (fun x => decide (x.startTime > t)) with
        | some m =>
          obtain ⟨hm, _, _⟩ := List.findIdx?_eq_some_iff_getElem.mp h2
          rw [hlen1] at hm
          rw [jsFindIndex_some h2]
          omega
        | none =>
          rw [jsFindIndex_none h2]
          omega
    constructor
    · rw [jumpToPrevSentenceTarget_eq [g] t (by rw [hlen1]; omega)]
      rw [if_pos hr]
    · rw [jumpToNextSentenceTarget_eq [g] t (by rw [hlen1]; omega)]
      rw [if_pos (by rw [hlen1]; omega)]

theorem C7_same_speaker_navigation_witness :
    ∃ i j : Nat,
      resolveGroupIdx
          [⟨"group-1", 1, 0, 1000, [], "a"⟩, ⟨"group-2", 2, 1000, 2000, [], "b"⟩,
            ⟨"group-3", 1, 2000, 3000, [], "c"⟩] 2500 = (i : Int) ∧
        0 < i ∧
        i < ([⟨"group-1", 1, 0, 1000, [], "a"⟩, ⟨"group-2", 2, 1000, 2000, [], "b"⟩,
            ⟨"group-3", 1, 2000, 3000, [], "c"⟩] : List SpeakerGroup).length ∧
        j < i ∧
        (([⟨"group-1", 1, 0, 1000, [], "a"⟩, ⟨"group-2", 2, 1000, 2000, [], "b"⟩,
            ⟨"group-3", 1, 2000, 3000, [], "c"⟩] : List SpeakerGroup).getD j
              dfltGroup).speakerId =
          (([⟨"group-1", 1, 0, 1000, [], "a"⟩, ⟨"group-2", 2, 1000, 2000, [], "b"⟩,
              ⟨"group-3", 1, 2000, 3000, [], "c"⟩] : List SpeakerGroup).getD i
                dfltGroup).speakerId ∧
        (∀ k, j < k → k < i →
          (([⟨"group-1", 1, 0, 1000, [], "a"⟩, ⟨"group-2", 2, 1000, 2000, [], "b"⟩,
              ⟨"group-3", 1, 2000, 3000, [], "c"⟩] : List SpeakerGroup).getD k
                dfltGroup).speakerId ≠
            (([⟨"group-1", 1, 0, 1000, [], "a"⟩, ⟨"group-2", 2, 1000, 2000, [], "b"⟩,
                ⟨"group-3", 1, 2000, 3000, [], "c"⟩] : List SpeakerGroup).getD i
                  dfltGroup).speakerId) ∧
        (0 : Int) =
          (([⟨"group-1", 1, 0, 1000, [], "a"⟩, ⟨"group-2", 2, 1000, 2000, [], "b"⟩,
              ⟨"group-3", 1, 2000, 3000, [], "c"⟩] : List SpeakerGroup).getD j
                dfltGroup).startTime :=
  C7_same_speaker_navigation.1
    [⟨"group-1", 1, 0, 1000, [], "a"⟩, ⟨"group-2", 2, 1000, 2000, [], "b"⟩,
      ⟨"group-3", 1, 2000, 3000, [], "c"⟩] 2500 0 (by decide)

end Ali
